import Mathlib

/-!
Shallow embedding of the semstrait-js attribute-resolution and pivot engine
(`src/utils.ts`), together with theorems about the behaviour of `pivot`,
`getAttributeRef`, `attributeAlias` and `formatAttributeValue`.

JavaScript values are modelled as follows: a raw scalar is a string, a
number, or `null`; an absent object property reads as `undefined`, which we
model by `Option` (`none` = absent/undefined).  JavaScript numbers are
modelled by `Rat` (every integer and finite decimal literal appearing in the
code's data paths is exact in `Rat`); `parseFloat` can also produce `NaN`
and the infinities, which get their own constructors.  JavaScript objects
and `Map`s preserve insertion order, so both are modelled as
association lists in insertion order, with `assocSet` replacing an existing
key in place and appending a new key at the end, exactly as JS assignment
does.  A thrown `Error` is modelled by `Except`.
-/

namespace Semstrait

/-- A JavaScript number as produced by `parseFloat`: `NaN`, `±Infinity`,
or a finite value (modelled exactly as a rational). -/
inductive JSNum where
  | nan
  | inf
  | negInf
  | val (q : Rat)
deriving Repr, DecidableEq

/-- A raw scalar stored in a `RawDataRow` (`string | number | null` in the
source).  An absent property is modelled as `Option.none` at the lookup
site, not as a constructor here. -/
inductive RawValue where
  | null
  | str (s : String)
  | num (q : Rat)
deriving Repr, DecidableEq

/-- A value stored in a pivoted `RowData` object: either a formatted string
(row-attribute field) or an ordered metric sequence (`(number | null)[]`). -/
inductive RowVal where
  | str (s : String)
  | arr (xs : List (Option JSNum))
deriving Repr, DecidableEq

/-- `RawDataRow` from the source: a flat object mapping keys to raw scalars.
Insertion-ordered association list; `assocGet` returning `none` models
reading an absent property (`undefined`). -/
abbrev RawDataRow : Type := List (String × RawValue)

/-- `RowData` from the source: a pivoted row object. -/
abbrev RowData : Type := List (String × RowVal)

/-- Property read on a JS object / `Map.get`: the value at the first
matching key, `none` when absent. -/
def assocGet {α : Type} (m : List (String × α)) (k : String) : Option α :=
  match m with
  | [] => none
  | (k', v) :: rest => if k' = k then some v else assocGet rest k

/-- Property write on a JS object / `Map.set`: replaces the value of an
existing key in place (keeping its position in enumeration order), appends
a new key at the end. -/
def assocSet {α : Type} (m : List (String × α)) (k : String) (v : α) :
    List (String × α) :=
  match m with
  | [] => [(k, v)]
  | (k', v') :: rest =>
    if k' = k then (k, v) :: rest else (k', v') :: assocSet rest k v

/-- `Attribute` from `types.ts`.  Only the fields consulted by the embedded
functions are kept (`name` and `type`); `column`, `label`, `description`
and `examples` are never read by `utils.ts`. -/
structure Attribute where
  name : String
  type : Option String
deriving Repr, DecidableEq

/-- `Dimension` (model-level dimension definition) from `types.ts`.  The
fields consulted by `utils.ts` are `name`, `alias` (here `aliasName`,
since `alias` is a reserved command name in Lean), `label` and
`attributes`; `source`, `table`, `description` and `virtual` are omitted. -/
structure Dimension where
  name : String
  aliasName : Option String
  label : Option String
  attributes : List Attribute
deriving Repr, DecidableEq

/-- `DatasetGroupDimension` from `types.ts`: a dimension reference inside a
dataset group, degenerate when it carries inline `attributes`.  The `join`
field is never consulted by `utils.ts` and is omitted. -/
structure DatasetGroupDimension where
  name : String
  label : Option String
  attributes : Option (List Attribute)
deriving Repr, DecidableEq

/-- `AttributeRef` from `types.ts`: a resolved dimension reference plus
attribute name plus optional dataset-group qualifier. -/
structure AttributeRef where
  dimension : DatasetGroupDimension
  -- the source names this field `attribute`, a reserved word in Lean
  attrName : String
  datasetGroupQualifier : Option String
deriving Repr, DecidableEq

/-- `DatasetGroup` from `types.ts`.  Only `name` and `dimensions` are
consulted by `utils.ts`; `label`, `description`, `measures` and `datasets`
are omitted. -/
structure DatasetGroup where
  name : String
  dimensions : List DatasetGroupDimension
deriving Repr, DecidableEq

/-- `SemanticModel` from `types.ts`.  `utils.ts` consults `name`, the
optional model-level `dimensions` and the dataset-group list (accessed as
`model.datasetGroups` in `utils.ts`); the remaining fields are omitted. -/
structure SemanticModel where
  name : String
  dimensions : Option (List Dimension)
  datasetGroups : List DatasetGroup
deriving Repr, DecidableEq

/-- `Schema` from `types.ts`. -/
structure Schema where
  semantic_models : List SemanticModel
deriving Repr, DecidableEq

/-- `QueryRequest` from `types.ts`, restricted to the fields `pivot`
consults. -/
structure QueryRequest where
  model : String
  rows : Option (List String)
  columns : Option (List String)
  metrics : Option (List String)
deriving Repr, DecidableEq

/-- The errors thrown by `pivot` and its helpers, one constructor per
`throw new Error(...)` site in `utils.ts`, plus `typeError` for the
implicit `TypeError`s JavaScript raises when `.toString()` is called on
`undefined` or `.push` on a non-array. -/
inductive PivotError where
  | modelNotFound (model : String)
  | groupingNotFound (datasetGroup : String)
  | dimensionNotFoundInGrouping (dim dg : String)
  | dimensionNotFoundInAnyGrouping (dim : String)
  | invalidPathFormat (path : String)
  | dimensionNotFoundInModel (dim : String)
  | attributeNotFound (att dim : String)
  | typeError
deriving Repr, DecidableEq

/-- `Array.prototype.map` over a throwing callback: stops at the first
thrown error. -/
def mapExcept {α β ε : Type} (f : α → Except ε β) : List α → Except ε (List β)
  | [] => .ok []
  | x :: xs =>
    match f x with
    | .error e => .error e
    | .ok y =>
      match mapExcept f xs with
      | .error e => .error e
      | .ok ys => .ok (y :: ys)

/-- A sequential loop threading state through a throwing body: stops at the
first thrown error. -/
def foldExcept {σ α ε : Type} (f : σ → α → Except ε σ) : σ → List α → Except ε σ
  | s, [] => .ok s
  | s, x :: xs =>
    match f s x with
    | .error e => .error e
    | .ok s' => foldExcept f s' xs

/-- `String.prototype.split('.')`: split on every occurrence of the dot,
keeping empty segments; an input without a dot yields a one-element list. -/
def splitDotAux : List Char → List Char → List String
  | [], cur => [String.mk cur.reverse]
  | c :: rest, cur =>
    if c = '.' then String.mk cur.reverse :: splitDotAux rest []
    else splitDotAux rest (c :: cur)

/-- `dimAtt.split('.')` from the source. -/
def splitDot (s : String) : List String := splitDotAux s.toList []

/-- `Array.prototype.join(sep)` on a list of strings: the empty list joins
to `""`. -/
def joinSep (sep : String) : List String → String
  | [] => ""
  | [x] => x
  | x :: xs => x ++ sep ++ joinSep sep xs

/-- Decimal rendering of an integer, as JavaScript renders integer-valued
numbers. -/
def intToString (n : Int) : String := toString n

/-- Models `Number.prototype.toString` on a raw number.  ECMA-262 renders
numbers as their shortest round-tripping decimal form; for every
integer-valued number this is the plain decimal digit string, which is what
this model produces (non-integer rationals fall back to Lean's exact
`num/den` rendering, a stand-in for the external decimal printer). -/
def ratToString (q : Rat) : String :=
  if q.den = 1 then intToString q.num else toString q

/-- JavaScript template-literal interpolation `${v}` of a raw scalar:
`String(v)`, with `null` rendering as `"null"` and an absent property
(`undefined`) as `"undefined"`. -/
def jsStringOfRaw : Option RawValue → String
  | none => "undefined"
  | some .null => "null"
  | some (.str s) => s
  | some (.num q) => ratToString q

/-- JavaScript truthiness of a raw scalar read from a row: `undefined`,
`null`, `""` and `0` are falsy. -/
def jsTruthy : Option RawValue → Bool
  | none => false
  | some .null => false
  | some (.str s) => s != ""
  | some (.num q) => q != 0

/-- JavaScript truthiness of a `RowData` value: a string is truthy iff
nonempty; every array (even empty) is truthy. -/
def rowValTruthy : RowVal → Bool
  | .str s => s != ""
  | .arr _ => true

/-- ECMAScript whitespace accepted at the start of `parseFloat`/`parseInt`
input (restricted to the common ASCII whitespace characters). -/
def jsIsSpaceChar (c : Char) : Bool :=
  c = ' ' || c = '\t' || c = '\n' || c = '\r'

/-- The longest leading run of decimal digits of a character list, plus the
rest. -/
def takeDigits : List Char → (List Char × List Char)
  | [] => ([], [])
  | c :: cs =>
    if c.isDigit then
      let (d, r) := takeDigits cs
      (c :: d, r)
    else ([], c :: cs)

/-- The value of a digit string read in base 10. -/
def digitsToNat (ds : List Char) : Nat :=
  ds.foldl (fun a c => 10 * a + (c.toNat - 48)) 0

/-- Integer power of ten over `Rat`, for both signs of the exponent. -/
def pow10 (e : Int) : Rat :=
  if e ≥ 0 then ((10 : Rat) ^ e.toNat) else 1 / ((10 : Rat) ^ (-e).toNat)

/-- The optional exponent part of a decimal literal: a sign followed by
digits; reports whether a well-formed exponent is present. -/
def parseExpPart (l : List Char) : Bool × Int :=
  let (es, l') :=
    match l with
    | '-' :: r => ((-1 : Int), r)
    | '+' :: r => ((1 : Int), r)
    | _ => ((1 : Int), l)
  let (ds, _) := takeDigits l'
  if ds = [] then (false, 0) else (true, es * (digitsToNat ds : Int))

/-- Models ECMA-262 `parseFloat` on a string: skip leading whitespace, read
an optional sign, then the longest prefix that is `Infinity` or a decimal
literal (`digits [. digits] [e[sign]digits]` or `.digits ...`); the result
is the exact value of that prefix, or `NaN` when no prefix parses.
`parseFloat` is part of the JavaScript runtime, not of this repository;
this model is exact on every decimal literal. -/
def parseFloatStr (s : String) : JSNum :=
  let l := s.toList.dropWhile jsIsSpaceChar
  let (sign, l) :=
    match l with
    | '-' :: r => ((-1 : Int), r)
    | '+' :: r => ((1 : Int), r)
    | _ => ((1 : Int), l)
  if l.take 8 = "Infinity".toList then
    (if sign = 1 then .inf else .negInf)
  else
    let (ip, l1) := takeDigits l
    let (fp, l2) :=
      match l1 with
      | '.' :: r => takeDigits r
      | _ => ([], l1)
    if ip = [] ∧ fp = [] then .nan
    else
      let mant : Rat :=
        (digitsToNat ip : Rat) + (digitsToNat fp : Rat) / ((10 : Rat) ^ fp.length)
      let (expOk, e) :=
        match l2 with
        | c :: r => if c = 'e' ∨ c = 'E' then parseExpPart r else (false, 0)
        | [] => (false, 0)
      let value := if expOk then mant * pow10 e else mant
      .val ((sign : Rat) * value)

/-- Models ECMA-262 `parseInt(s, 10)`: skip leading whitespace, read an
optional sign and then the longest decimal-digit prefix; `none` models
`NaN` (no digits). -/
def parseIntStr10 (s : String) : Option Int :=
  let l := s.toList.dropWhile jsIsSpaceChar
  let (sign, l) :=
    match l with
    | '-' :: r => ((-1 : Int), r)
    | '+' :: r => ((1 : Int), r)
    | _ => ((1 : Int), l)
  let (ds, _) := takeDigits l
  if ds = [] then none else some (sign * (digitsToNat ds : Int))

/-- `ToIntegerOrInfinity` truncation applied by `new Date(ms)` (`TimeClip`):
truncate the (finite) millisecond value toward zero. -/
def ratTrunc (q : Rat) : Int := Int.tdiv q.num q.den

/-- Civil date from a day count since 1970-01-01 (proleptic Gregorian,
Howard Hinnant's `civil_from_days` algorithm, which is what the ECMAScript
UTC date accessors compute): year, month (1..12), day (1..31). -/
def civilFromDays (z0 : Int) : Int × Int × Int :=
  let z := z0 + 719468
  let era : Int := z.fdiv 146097
  let doe : Int := z - era * 146097
  let yoe : Int := (doe - doe.fdiv 1460 + doe.fdiv 36524 - doe.fdiv 146096).fdiv 365
  let y : Int := yoe + era * 400
  let doy : Int := doe - (365 * yoe + yoe.fdiv 4 - yoe.fdiv 100)
  let mp : Int := (5 * doy + 2).fdiv 153
  let d : Int := doy - (153 * mp + 2).fdiv 5 + 1
  let m : Int := mp + (if mp < 10 then 3 else -9)
  (y + (if m ≤ 2 then 1 else 0), m, d)

/-- `String(n).padStart(2, '0')` for the (nonnegative) month/day/hour/minute
components. -/
def padTwo (n : Int) : String :=
  let s := intToString n
  if s.length < 2 then "0" ++ s else s

/-- `formatDate` from the source: auto-detect days-since-epoch versus
milliseconds by the `> 100000` threshold, then render the UTC civil date as
`yyyy-MM-dd` (month and day zero-padded to two digits). -/
def formatDate (value : Rat) : String :=
  let milliseconds : Rat :=
    if value > 100000 then value else value * 86400000
  let ms : Int := ratTrunc milliseconds
  let day : Int := ms.fdiv 86400000
  let (y, m, d) := civilFromDays day
  intToString y ++ "-" ++ padTwo m ++ "-" ++ padTwo d

/-- Short month names used by the `en-US` locale. -/
def monthShort (m : Int) : String :=
  if m = 1 then "Jan" else if m = 2 then "Feb" else if m = 3 then "Mar"
  else if m = 4 then "Apr" else if m = 5 then "May" else if m = 6 then "Jun"
  else if m = 7 then "Jul" else if m = 8 then "Aug" else if m = 9 then "Sep"
  else if m = 10 then "Oct" else if m = 11 then "Nov" else "Dec"

/-- `formatTimestamp` from the source: microseconds since epoch divided by
1000 and rendered through `toLocaleString('en-US', {...})`.  The locale
renderer is part of the JavaScript runtime, not of this repository; this
model renders the documented `en-US` shape
`MMM d, yyyy, hh:mm AM/PM` of the UTC instant. -/
def formatTimestamp (value : Rat) : String :=
  let ms : Int := ratTrunc (value / 1000)
  let day : Int := ms.fdiv 86400000
  let (y, m, d) := civilFromDays day
  let msOfDay : Int := ms - day * 86400000
  let hour : Int := msOfDay.fdiv 3600000
  let minute : Int := (msOfDay.fdiv 60000) % 60
  let h12 : Int := if hour % 12 = 0 then 12 else hour % 12
  let ampm : String := if hour < 12 then "AM" else "PM"
  monthShort m ++ " " ++ intToString d ++ ", " ++ intToString y ++ ", " ++
    padTwo h12 ++ ":" ++ padTwo minute ++ " " ++ ampm

/-- `formatAttributeValue` from the source: `null`/`undefined` render as
`''`; when the attribute's declared type (lower-cased) is `date` or
`timestamp` and the value (or its `parseInt`) is not `NaN` the value is
rendered by the corresponding formatter; everything else falls through to
`value.toString()`. -/
def formatAttributeValue (value : Option RawValue) (att : Option Attribute) :
    String :=
  match value with
  | none => ""
  | some .null => ""
  | some v =>
    let attrType : Option String := (att.bind (fun a => a.type)).map (fun t => t.toLower)
    let fallback : String :=
      match v with
      | .null => ""
      | .str s => s
      | .num q => ratToString q
    if attrType = some "date" then
      match v with
      | .num q => formatDate q
      | .str s =>
        match parseIntStr10 s with
        | some n => formatDate (n : Rat)
        | none => fallback
      | .null => fallback
    else if attrType = some "timestamp" then
      match v with
      | .num q => formatTimestamp q
      | .str s =>
        match parseIntStr10 s with
        | some n => formatTimestamp (n : Rat)
        | none => fallback
      | .null => fallback
    else fallback

/-- The inner loop of the two-segment search in `getAttributeRef`: walk the
dataset groups in declaration order and return the first dimension
reference whose name matches. -/
def findDimRefInGroups (dimName : String) :
    List DatasetGroup → Option DatasetGroupDimension
  | [] => none
  | dg :: rest =>
    match dg.dimensions.find? (fun d => d.name = dimName) with
    | some r => some r
    | none => findDimRefInGroups dimName rest

/-- All dimension references of all dataset groups, in declaration order. -/
def allGroupDims (gs : List DatasetGroup) : List DatasetGroupDimension :=
  (gs.map (fun g => g.dimensions)).flatten

/-- `getAttributeRef` from the source: resolve a dotted path against a
model.  Three segments: qualified lookup in the named dataset group.  Two
segments: first match across all dataset groups, then model-level
dimensions (synthesizing a degenerate-style reference), else failure.  Any
other segment count is an invalid path. -/
def getAttributeRef (dimAtt : String) (model : SemanticModel) :
    Except PivotError AttributeRef :=
  match splitDot dimAtt with
  | [dgName, dimName, attName] =>
    match model.datasetGroups.find? (fun dg => dg.name = dgName) with
    | none => .error (.groupingNotFound dgName)
    | some datasetGroup =>
      match datasetGroup.dimensions.find? (fun d => d.name = dimName) with
      | some dimRef => .ok ⟨dimRef, attName, some dgName⟩
      | none => .error (.dimensionNotFoundInGrouping dimName dgName)
  | [dimName, attName] =>
    match findDimRefInGroups dimName model.datasetGroups with
    | some dimRef => .ok ⟨dimRef, attName, none⟩
    | none =>
      match (model.dimensions.getD []).find? (fun d => d.name = dimName) with
      | some modelDim =>
        .ok ⟨⟨modelDim.name, modelDim.label, some modelDim.attributes⟩, attName, none⟩
      | none => .error (.dimensionNotFoundInAnyGrouping dimName)
  | _ => .error (.invalidPathFormat dimAtt)

/-- `attributeAlias` from the source: a degenerate reference whose inline
attributes contain the requested name yields
`[qualifier.]dimensionName.attributeName`; otherwise the dimension is
looked up in the model-level list (then the attribute inside it) and the
alias uses the dimension's declared alias, falling back to its name. -/
def attributeAlias (dimensions : List Dimension) (attributeRef : AttributeRef) :
    Except PivotError String :=
  let degenerate : Option String :=
    match attributeRef.dimension.attributes with
    | some attrs =>
      match attrs.find? (fun a => a.name = attributeRef.attrName) with
      | some att =>
        some (match attributeRef.datasetGroupQualifier with
          | some q => q ++ "." ++ attributeRef.dimension.name ++ "." ++ att.name
          | none => attributeRef.dimension.name ++ "." ++ att.name)
      | none => none
    | none => none
  match degenerate with
  | some s => .ok s
  | none =>
    match dimensions.find? (fun d => d.name = attributeRef.dimension.name) with
    | none => .error (.dimensionNotFoundInModel attributeRef.dimension.name)
    | some dimension =>
      match dimension.attributes.find? (fun a => a.name = attributeRef.attrName) with
      | none => .error (.attributeNotFound attributeRef.attrName attributeRef.dimension.name)
      | some att =>
        let dimAlias := dimension.aliasName.getD dimension.name
        match attributeRef.datasetGroupQualifier with
        | some q => .ok (q ++ "." ++ dimAlias ++ "." ++ att.name)
        | none => .ok (dimAlias ++ "." ++ att.name)

/-- `getAttribute` from the source: the attribute definition behind a
resolved reference (inline attributes first, then the model-level
dimension), or `none`. -/
def getAttribute (dimensions : List Dimension) (attributeRef : AttributeRef) :
    Option Attribute :=
  let degenerate : Option Attribute :=
    match attributeRef.dimension.attributes with
    | some attrs => attrs.find? (fun a => a.name = attributeRef.attrName)
    | none => none
  match degenerate with
  | some a => some a
  | none =>
    match dimensions.find? (fun d => d.name = attributeRef.dimension.name) with
    | none => none
    | some dimension => dimension.attributes.find? (fun a => a.name = attributeRef.attrName)

/-- Metric extraction in the no-columns branch (line 80 of the source):
`row[m] === null ? null : parseFloat(row[m].toString())`.  An explicit
`null` is preserved; an absent property makes `undefined.toString()` throw
a `TypeError`; a number round-trips through `toString`/`parseFloat`
unchanged (an ECMA-262 guarantee); a string goes through `parseFloat`. -/
def metricValueNoColumns : Option RawValue → Except PivotError (Option JSNum)
  | some .null => .ok none
  | none => .error .typeError
  | some (.str s) => .ok (some (parseFloatStr s))
  | some (.num q) => .ok (some (.val q))

/-- Metric extraction in the columns branch (line 102 of the source):
`row[m] ? parseFloat(row[m].toString()) : null`.  Truthiness, not a null
check: `undefined`, `null`, `""` and `0` all map to `null`. -/
def metricValueColumns : Option RawValue → Option JSNum
  | none => none
  | some .null => none
  | some (.str s) => if s = "" then none else some (parseFloatStr s)
  | some (.num q) => if q = 0 then none else some (.val q)

/-- The `let metricsArr = resultRow[key] as ...; if (!metricsArr) metricsArr
= []; ...push...; resultRow[key] = metricsArr` sequence from the source.
An existing array is extended; an absent value or the falsy `""` starts a
fresh array; pushing onto a nonempty string (possible only when a
row-attribute field shares the key) throws a `TypeError` unless nothing is
pushed, in which case the string is written back unchanged. -/
def pushMetrics (cur : Option RowVal) (vals : List (Option JSNum)) :
    Except PivotError RowVal :=
  match cur with
  | some (.arr a) => .ok (.arr (a ++ vals))
  | some (.str s) =>
    if s = "" then .ok (.arr vals)
    else if vals = [] then .ok (.str s)
    else .error .typeError
  | none => .ok (.arr vals)

/-- The mutable accumulation state of `pivot`'s first pass: the insertion-
ordered `resultMap` and the `columnArr` of observed column keys. -/
structure Pass1State where
  resultMap : List (String × RowData)
  columnArr : List String
deriving Repr, DecidableEq

/-- The body of `data.map(row => ...)` in `pivot` (lines 47-110 of the
source), with the mutations on `resultMap`/`columnArr` made explicit:
compute the row key from raw interpolated values, create and populate the
pivot row on first sight, accumulate metrics under `"metrics"` (no columns
requested) or under the per-row column key (columns requested), and record
the column key. -/
def processRow (model : SemanticModel) (dimensions : List Dimension)
    (rows columns metrics : List String) (st : Pass1State) (row : RawDataRow) :
    Except PivotError Pass1State :=
  match mapExcept (fun rowAttName =>
      match getAttributeRef rowAttName model with
      | .error e => .error e
      | .ok attRef =>
        match attributeAlias dimensions attRef with
        | .error e => .error e
        | .ok attAlias => .ok (attAlias ++ ":" ++ jsStringOfRaw (assocGet row attAlias))) rows with
  | .error e => .error e
  | .ok segs =>
    let rowKey := joinSep "," segs
    match (match assocGet st.resultMap rowKey with
      | some r => Except.ok r
      | none =>
        foldExcept (fun (acc : RowData) rowAttName =>
          match getAttributeRef rowAttName model with
          | .error e => .error e
          | .ok attRef =>
            match attributeAlias dimensions attRef with
            | .error e => .error e
            | .ok attAlias =>
              let attr := getAttribute dimensions attRef
              .ok (assocSet acc attAlias
                (.str (formatAttributeValue (assocGet row attAlias) attr)))) [] rows) with
    | .error e => .error e
    | .ok resultRow0 =>
      match (if columns.length = 0 then
          match mapExcept (fun m => metricValueNoColumns (assocGet row m)) metrics with
          | .error e => .error e
          | .ok vals =>
            match pushMetrics (assocGet resultRow0 "metrics") vals with
            | .error e => .error e
            | .ok nv => Except.ok (assocSet resultRow0 "metrics" nv)
        else Except.ok resultRow0) with
      | .error e => .error e
      | .ok resultRow1 =>
        match mapExcept (fun colAttName =>
            match getAttributeRef colAttName model with
            | .error e => .error e
            | .ok attRef =>
              match attributeAlias dimensions attRef with
              | .error e => .error e
              | .ok attAlias =>
                let attr := getAttribute dimensions attRef
                .ok (attAlias ++ ":" ++ formatAttributeValue (assocGet row attAlias) attr)) columns with
        | .error e => .error e
        | .ok colSegs =>
          let columnKey := joinSep "|" colSegs
          if columns.length > 0 then
            let vals := metrics.map (fun m => metricValueColumns (assocGet row m))
            match pushMetrics (assocGet resultRow1 columnKey) vals with
            | .error e => .error e
            | .ok nv =>
              .ok ⟨assocSet st.resultMap rowKey (assocSet resultRow1 columnKey nv),
                st.columnArr ++ [columnKey]⟩
          else
            .ok ⟨assocSet st.resultMap rowKey resultRow1, st.columnArr⟩

/-- One step of the deduplication filter
`columnArr.filter((v, i, a) => a.indexOf(v) === i)`: keep a value only if
it has not been kept before. -/
def stepKey (ks : List String) (k : String) : List String :=
  if k ∈ ks then ks else ks ++ [k]

/-- `filter((v, i, a) => a.indexOf(v) === i)`: first occurrences, in
order. -/
def dedupKeepFirst (l : List String) : List String :=
  l.foldl stepKey []

/-- UTF-16 code units of a string, the units JavaScript's default sort
comparator compares. -/
def utf16Units (s : String) : List Nat :=
  (s.toList.map (fun c =>
    let v := c.toNat
    if v < 0x10000 then [v]
    else [0xD800 + (v - 0x10000) / 0x400, 0xDC00 + (v - 0x10000) % 0x400])).flatten

/-- Lexicographic order on code-unit lists. -/
def unitsLE : List Nat → List Nat → Bool
  | [], _ => true
  | _ :: _, [] => false
  | a :: as, b :: bs => if a < b then true else if b < a then false else unitsLE as bs

/-- The default `Array.prototype.sort` comparator on strings: lexicographic
by UTF-16 code units. -/
def jsLeString (a b : String) : Bool := unitsLE (utf16Units a) (utf16Units b)

/-- Insertion of one element into a `jsLeString`-sorted list. -/
def insertLE (x : String) : List String → List String
  | [] => [x]
  | y :: ys => if jsLeString x y then x :: y :: ys else y :: insertLE x ys

/-- `Array.prototype.sort()` on distinct strings: any comparison sort
produces the unique `jsLeString`-sorted permutation, here realised as an
insertion sort. -/
def jsSort : List String → List String
  | [] => []
  | x :: xs => insertLE x (jsSort xs)

/-- The truthiness-guarded copy `row[col] ? row[col] : new
Array(metrics.length).fill(null)` performed per column key during
densification. -/
def densVal (row : RowData) (metrics : List String) (col : String) : RowVal :=
  match assocGet row col with
  | some v => if rowValTruthy v then v else .arr (List.replicate metrics.length none)
  | none => .arr (List.replicate metrics.length none)

/-- The body of the densification pass of `pivot` (lines 115-135 of the
source): copy each row-attribute alias field, copy `"metrics"` through
when no column keys were observed, and give every key of the global
column-key set either its accumulated (truthy) value or a null-filled
array of length `metrics.length`. -/
def densifyRow (model : SemanticModel) (dimensions : List Dimension)
    (rows metrics : List String) (columnSet : List String) (row : RowData) :
    Except PivotError RowData :=
  match foldExcept (fun (acc : RowData) rowAttName =>
      match getAttributeRef rowAttName model with
      | .error e => .error e
      | .ok attRef =>
        match attributeAlias dimensions attRef with
        | .error e => .error e
        | .ok attAlias =>
          -- the alias field is always present (set at row creation);
          -- the `none` case is unreachable in any run of `pivot`
          .ok (match assocGet row attAlias with
            | some v => assocSet acc attAlias v
            | none => acc)) [] rows with
  | .error e => .error e
  | .ok dr0 =>
    let dr1 := if columnSet.length = 0 then
        (match assocGet row "metrics" with
         | some v => assocSet dr0 "metrics" v
         | none => dr0)
      else dr0
    .ok (columnSet.foldl (fun acc col => assocSet acc col (densVal row metrics col)) dr1)

/-- `pivot` from the source: look up the model, run the accumulation pass
over the raw rows, compute the sorted deduplicated column-key set, and
densify every accumulated row in insertion order. -/
def pivot (data : List RawDataRow) (schema : Schema) (modelName : String)
    (query : QueryRequest) : Except PivotError (List RowData) :=
  match schema.semantic_models.find? (fun m => m.name = modelName) with
  | none => .error (.modelNotFound modelName)
  | some model =>
    let dimensions := model.dimensions.getD []
    let rows := query.rows.getD []
    let columns := query.columns.getD []
    let metrics := query.metrics.getD []
    match foldExcept (processRow model dimensions rows columns metrics) ⟨[], []⟩ data with
    | .error e => .error e
    | .ok st =>
      let columnSet := jsSort (dedupKeepFirst st.columnArr)
      mapExcept (densifyRow model dimensions rows metrics columnSet)
        (st.resultMap.map (fun kv => kv.2))

/-!
Resolved forms.  Path resolution inside `pivot` is independent of the data
row being processed, so once every requested path resolves, each pass of
`pivot` is equivalent to a pass in which the alias and attribute of every
path have been resolved up front.  The `...R` definitions below are those
resolved forms; the equivalence with the inline definitions above is proved
in the theorems section and every structural argument about `pivot` is
carried out on them.
-/

/-- Resolve one path: the canonical alias together with the attribute
definition used for formatting. -/
def resolvePath (model : SemanticModel) (dimensions : List Dimension) (p : String) :
    Except PivotError (String × Option Attribute) :=
  match getAttributeRef p model with
  | .error e => .error e
  | .ok attRef =>
    match attributeAlias dimensions attRef with
    | .error e => .error e
    | .ok attAlias => .ok (attAlias, getAttribute dimensions attRef)

/-- Resolve a list of paths, stopping at the first failure. -/
def resolvePaths (model : SemanticModel) (dimensions : List Dimension)
    (ps : List String) : Except PivotError (List (String × Option Attribute)) :=
  mapExcept (resolvePath model dimensions) ps

/-- The row key of a raw row, given the resolved row paths: the
comma-joined `alias:rawValue` pairs, with the raw value rendered by
template-literal interpolation (`null` → `"null"`, absent →
`"undefined"`). -/
def rowKeyR (rowInfos : List (String × Option Attribute)) (row : RawDataRow) :
    String :=
  joinSep "," (rowInfos.map (fun pi => pi.1 ++ ":" ++ jsStringOfRaw (assocGet row pi.1)))

/-- The column-key segments of a raw row, given the resolved column paths:
`alias:formattedValue` per column path. -/
def colSegmentsR (colInfos : List (String × Option Attribute)) (row : RawDataRow) :
    List String :=
  colInfos.map (fun ci => ci.1 ++ ":" ++ formatAttributeValue (assocGet row ci.1) ci.2)

/-- The column key of a raw row: the pipe-joined column-key segments. -/
def colKeyR (colInfos : List (String × Option Attribute)) (row : RawDataRow) :
    String :=
  joinSep "|" (colSegmentsR colInfos row)

/-- The freshly created pivot row: each row-attribute alias field set to the
formatted (type-aware) value. -/
def newRowR (rowInfos : List (String × Option Attribute)) (row : RawDataRow) :
    RowData :=
  rowInfos.foldl
    (fun acc pi => assocSet acc pi.1 (.str (formatAttributeValue (assocGet row pi.1) pi.2)))
    []

/-- The pivot row a processing step reads (when its row key is already in
the map) or creates (otherwise). -/
def processTarget (rowInfos : List (String × Option Attribute)) (st : Pass1State)
    (row : RawDataRow) : RowData :=
  match assocGet st.resultMap (rowKeyR rowInfos row) with
  | some r => r
  | none => newRowR rowInfos row

/-- `processRow` with all paths resolved up front. -/
def processRowR (rowInfos colInfos : List (String × Option Attribute))
    (metrics : List String) (st : Pass1State) (row : RawDataRow) :
    Except PivotError Pass1State :=
  let rowKey := rowKeyR rowInfos row
  let resultRow0 : RowData := processTarget rowInfos st row
  match (if colInfos.isEmpty then
      match mapExcept (fun m => metricValueNoColumns (assocGet row m)) metrics with
      | .error e => .error e
      | .ok vals =>
        match pushMetrics (assocGet resultRow0 "metrics") vals with
        | .error e => .error e
        | .ok nv => Except.ok (assocSet resultRow0 "metrics" nv)
    else Except.ok resultRow0) with
  | .error e => .error e
  | .ok resultRow1 =>
    let columnKey := colKeyR colInfos row
    if colInfos.isEmpty then
      .ok ⟨assocSet st.resultMap rowKey resultRow1, st.columnArr⟩
    else
      let vals := metrics.map (fun m => metricValueColumns (assocGet row m))
      match pushMetrics (assocGet resultRow1 columnKey) vals with
      | .error e => .error e
      | .ok nv =>
        .ok ⟨assocSet st.resultMap rowKey (assocSet resultRow1 columnKey nv),
          st.columnArr ++ [columnKey]⟩

/-- Copy a possibly-absent value into an object field (a JS assignment
`dense[k] = row[k]` where an absent source leaves the field unset; the
absent case is unreachable in any run of `pivot`). -/
def setIfSome {α : Type} (acc : List (String × α)) (k : String) (v? : Option α) :
    List (String × α) :=
  match v? with
  | some v => assocSet acc k v
  | none => acc

/-- `densifyRow` with all paths resolved up front. -/
def densifyR (rowInfos : List (String × Option Attribute)) (metrics : List String)
    (columnSet : List String) (row : RowData) : RowData :=
  let dr0 : RowData :=
    rowInfos.foldl (fun acc pi => setIfSome acc pi.1 (assocGet row pi.1)) []
  let dr1 : RowData :=
    if columnSet.length = 0 then setIfSome dr0 "metrics" (assocGet row "metrics")
    else dr0
  columnSet.foldl (fun acc col => assocSet acc col (densVal row metrics col)) dr1

/-- The optional qualifier prefix of a canonical alias: `"q."` when a
dataset-group qualifier is present, empty otherwise. -/
def qualDot : Option String → String
  | some q => q ++ "."
  | none => ""

/-!
Concrete schema, query and data instances used by the example theorems:
a model `m` with one dataset group `g` holding the degenerate dimension
`d` (inline attributes `a` and `b`), and a variant whose dimension `x`
has an attribute literally named `y:z`, which collides with the column
key formed from attribute `y` and value `z`.
-/

def attrA : Attribute := ⟨"a", none⟩

def attrB : Attribute := ⟨"b", none⟩

def dimD : DatasetGroupDimension := ⟨"d", none, some [attrA, attrB]⟩

def groupG : DatasetGroup := ⟨"g", [dimD]⟩

def modelM : SemanticModel := ⟨"m", none, [groupG]⟩

def schemaM : Schema := ⟨[modelM]⟩

def queryCols : QueryRequest := ⟨"m", some ["d.a"], some ["d.b"], some ["v"]⟩

def queryNoCols : QueryRequest := ⟨"m", some ["d.a"], none, some ["v"]⟩

def rowZero : RawDataRow := [("d.a", .str "r"), ("d.b", .str "c"), ("v", .num 0)]

def rowNullStr : RawDataRow := [("d.a", .str "null"), ("v", .num 1)]

def rowNullVal : RawDataRow := [("d.a", .null), ("v", .num 2)]

def rowU1 : RawDataRow := [("d.a", .str "u"), ("v", .num 1)]

def rowU2 : RawDataRow := [("d.a", .str "u"), ("v", .num 2)]

def dimX : DatasetGroupDimension := ⟨"x", none, some [⟨"y", none⟩, ⟨"y:z", none⟩]⟩

def modelX : SemanticModel := ⟨"m", none, [⟨"g", [dimX]⟩]⟩

def schemaX : Schema := ⟨[modelX]⟩

def queryX : QueryRequest := ⟨"m", some ["x.y:z"], some ["x.y"], some ["mv"]⟩

def rowXA : RawDataRow := [("x.y:z", .null), ("x.y", .str "z"), ("mv", .num 1)]

def rowXB : RawDataRow := [("x.y:z", .str "r2"), ("x.y", .str "w"), ("mv", .num 2)]

def rowXC : RawDataRow := [("x.y:z", .str "r"), ("x.y", .str "z"), ("mv", .num 1)]

def rowXD : RawDataRow := [("x.y:z", .str "r"), ("x.y", .str "z"), ("mv", .num 2)]

end Semstrait

/-!
Theorems.  First the generic machinery about `mapExcept`, `foldExcept` and
association lists, then the equivalence between the source-shaped
definitions and their resolved forms, then the claim theorems.
-/

namespace Semstrait

theorem mapExcept_nil {α β ε : Type} (f : α → Except ε β) : mapExcept f [] = .ok [] := rfl

theorem mapExcept_cons {α β ε : Type} (f : α → Except ε β) (x : α) (xs : List α) :
    mapExcept f (x :: xs) =
      match f x with
      | .error e => .error e
      | .ok y =>
        match mapExcept f xs with
        | .error e => .error e
        | .ok ys => .ok (y :: ys) := rfl

theorem mapExcept_ok_length {α β ε : Type} (f : α → Except ε β) (l : List α)
    (ys : List β) (h : mapExcept f l = .ok ys) : ys.length = l.length := by
  induction l generalizing ys with
  | nil => simp [mapExcept] at h; simp [← h]
  | cons x xs ih =>
    rw [mapExcept_cons] at h
    cases hfx : f x with
    | error e => rw [hfx] at h; exact absurd h (by simp)
    | ok y =>
      rw [hfx] at h
      cases hxs : mapExcept f xs with
      | error e => rw [hxs] at h; exact absurd h (by simp)
      | ok ys' =>
        rw [hxs] at h
        simp only [Except.ok.injEq] at h
        subst h
        simp [ih ys' hxs]

theorem mapExcept_congr {α β ε : Type} (f g : α → Except ε β) (l : List α)
    (h : ∀ x ∈ l, f x = g x) : mapExcept f l = mapExcept g l := by
  induction l with
  | nil => rfl
  | cons x xs ih =>
    rw [mapExcept_cons, mapExcept_cons, h x (by simp),
      ih (fun y hy => h y (by simp [hy]))]

/-- Sequencing a pure continuation after a fallible computation (the shape
of every per-path step inside `pivot`). -/
def exceptThen {eps beta gamma : Type} (h : beta → gamma) (x : Except eps beta) :
    Except eps gamma :=
  match x with
  | .error e => .error e
  | .ok v => .ok (h v)

theorem exceptThen_error {eps beta gamma : Type} (h : beta → gamma) (e : eps) :
    exceptThen h (.error e) = (.error e : Except eps gamma) := rfl

theorem exceptThen_ok {eps beta gamma : Type} (h : beta → gamma) (v : beta) :
    exceptThen h (.ok v : Except eps beta) = .ok (h v) := rfl

theorem mapExcept_post {α β γ ε : Type} (g : α → Except ε β) (h : β → γ)
    (ps : List α) (infos : List β) (hg : mapExcept g ps = .ok infos) :
    mapExcept (fun p => exceptThen h (g p)) ps = .ok (infos.map h) := by
  induction ps generalizing infos with
  | nil =>
    simp [mapExcept] at hg
    subst hg
    rfl
  | cons p ps ih =>
    rw [mapExcept_cons] at hg
    cases hgp : g p with
    | error e => rw [hgp] at hg; exact absurd hg (by simp)
    | ok x =>
      rw [hgp] at hg
      cases hps : mapExcept g ps with
      | error e => rw [hps] at hg; exact absurd hg (by simp)
      | ok ys =>
        rw [hps] at hg
        simp only [Except.ok.injEq] at hg
        subst hg
        rw [mapExcept_cons, hgp, exceptThen_ok, ih ys hps]
        rfl

theorem mapExcept_pure_ok {α β ε : Type} (f : α → β) (l : List α) :
    mapExcept (fun x => (Except.ok (f x) : Except ε β)) l = .ok (l.map f) := by
  induction l with
  | nil => rfl
  | cons x xs ih => rw [mapExcept_cons, ih]; rfl

theorem foldExcept_nil {σ α ε : Type} (f : σ → α → Except ε σ) (s : σ) :
    foldExcept f s [] = .ok s := rfl

theorem foldExcept_cons {σ α ε : Type} (f : σ → α → Except ε σ) (s : σ)
    (x : α) (xs : List α) :
    foldExcept f s (x :: xs) =
      match f s x with
      | .error e => .error e
      | .ok s' => foldExcept f s' xs := rfl

theorem foldExcept_congr {σ α ε : Type} (f g : σ → α → Except ε σ) (l : List α)
    (h : ∀ s, ∀ x ∈ l, f s x = g s x) : ∀ s, foldExcept f s l = foldExcept g s l := by
  induction l with
  | nil => intro s; rfl
  | cons x xs ih =>
    intro s
    rw [foldExcept_cons, foldExcept_cons, h s x (by simp)]
    cases g s x with
    | error e => rfl
    | ok s' => exact ih (fun t y hy => h t y (by simp [hy])) s'

/-- A fold whose body is a resolved-then-pure-update step succeeds and
computes the pure fold over the resolved values. -/
theorem foldExcept_resolved {σ α β ε : Type} (g : α → Except ε β) (u : σ → β → σ)
    (ps : List α) (infos : List β) (hg : mapExcept g ps = .ok infos) :
    ∀ init : σ, foldExcept (fun acc p => exceptThen (u acc) (g p)) init ps =
      .ok (infos.foldl u init) := by
  induction ps generalizing infos with
  | nil =>
    intro init
    simp [mapExcept] at hg
    subst hg
    rfl
  | cons p ps ih =>
    intro init
    rw [mapExcept_cons] at hg
    cases hgp : g p with
    | error e => rw [hgp] at hg; exact absurd hg (by simp)
    | ok x =>
      rw [hgp] at hg
      cases hps : mapExcept g ps with
      | error e => rw [hps] at hg; exact absurd hg (by simp)
      | ok ys =>
        rw [hps] at hg
        simp only [Except.ok.injEq] at hg
        subst hg
        rw [foldExcept_cons, hgp, exceptThen_ok]
        exact ih ys hps (u init x)

theorem foldl_congr_mem {σ α : Type} (f g : σ → α → σ) (l : List α)
    (h : ∀ acc, ∀ x ∈ l, f acc x = g acc x) :
    ∀ init, l.foldl f init = l.foldl g init := by
  induction l with
  | nil => intro init; rfl
  | cons x xs ih =>
    intro init
    simp only [List.foldl]
    rw [h init x (by simp)]
    exact ih (fun acc y hy => h acc y (by simp [hy])) (g init x)

/-- Any of the per-path computations inside `pivot` (resolve a path, then
use its alias and attribute) equals the same computation phrased through
`resolvePath`. -/
theorem resolvePath_inline {gamma : Type} (model : SemanticModel)
    (dimensions : List Dimension) (p : String)
    (E : String → Option Attribute → gamma) :
    (match getAttributeRef p model with
     | Except.error e => Except.error e
     | Except.ok attRef =>
       match attributeAlias dimensions attRef with
       | Except.error e => Except.error e
       | Except.ok attAlias => Except.ok (E attAlias (getAttribute dimensions attRef))) =
    exceptThen (fun x => E x.1 x.2) (resolvePath model dimensions p) := by
  unfold resolvePath
  cases h : getAttributeRef p model with
  | error e => simp only [h, exceptThen]
  | ok ref =>
    simp only [h]
    cases h2 : attributeAlias dimensions ref with
    | error e => simp only [h2, exceptThen]
    | ok al => simp only [h2, exceptThen]

/-- Once every requested path resolves, one step of the accumulation pass
is the resolved step. -/
theorem processRow_resolved (model : SemanticModel) (dimensions : List Dimension)
    (rows columns metrics : List String) (ri ci : List (String × Option Attribute))
    (hr : resolvePaths model dimensions rows = .ok ri)
    (hc : resolvePaths model dimensions columns = .ok ci)
    (st : Pass1State) (row : RawDataRow) :
    processRow model dimensions rows columns metrics st row =
      processRowR ri ci metrics st row := by
  have h1 : mapExcept (fun rowAttName =>
      match getAttributeRef rowAttName model with
      | .error e => .error e
      | .ok attRef =>
        match attributeAlias dimensions attRef with
        | .error e => .error e
        | .ok attAlias => Except.ok (attAlias ++ ":" ++ jsStringOfRaw (assocGet row attAlias))) rows
      = .ok (ri.map (fun x => x.1 ++ ":" ++ jsStringOfRaw (assocGet row x.1))) := by
    rw [mapExcept_congr _ (fun p => exceptThen
        (fun x => x.1 ++ ":" ++ jsStringOfRaw (assocGet row x.1))
        (resolvePath model dimensions p)) rows
      (fun p _ => resolvePath_inline model dimensions p
        (fun al _ => al ++ ":" ++ jsStringOfRaw (assocGet row al)))]
    exact mapExcept_post _ _ _ _ hr
  have h2 : foldExcept (fun (acc : RowData) rowAttName =>
      match getAttributeRef rowAttName model with
      | .error e => .error e
      | .ok attRef =>
        match attributeAlias dimensions attRef with
        | .error e => .error e
        | .ok attAlias =>
          let attr := getAttribute dimensions attRef
          Except.ok (assocSet acc attAlias
            (.str (formatAttributeValue (assocGet row attAlias) attr)))) [] rows
      = .ok (newRowR ri row) := by
    rw [foldExcept_congr _ (fun (acc : RowData) p => exceptThen
        (fun x => assocSet acc x.1 (RowVal.str (formatAttributeValue (assocGet row x.1) x.2)))
        (resolvePath model dimensions p)) rows
      (fun acc p _ => resolvePath_inline model dimensions p
        (fun al attr => assocSet acc al
          (RowVal.str (formatAttributeValue (assocGet row al) attr)))) []]
    exact foldExcept_resolved _ (fun acc x => assocSet acc x.1
      (RowVal.str (formatAttributeValue (assocGet row x.1) x.2))) _ _ hr []
  have h3 : mapExcept (fun colAttName =>
      match getAttributeRef colAttName model with
      | .error e => .error e
      | .ok attRef =>
        match attributeAlias dimensions attRef with
        | .error e => .error e
        | .ok attAlias =>
          let attr := getAttribute dimensions attRef
          Except.ok (attAlias ++ ":" ++ formatAttributeValue (assocGet row attAlias) attr)) columns
      = .ok (colSegmentsR ci row) := by
    rw [mapExcept_congr _ (fun p => exceptThen
        (fun x => x.1 ++ ":" ++ formatAttributeValue (assocGet row x.1) x.2)
        (resolvePath model dimensions p)) columns
      (fun p _ => resolvePath_inline model dimensions p
        (fun al attr => al ++ ":" ++ formatAttributeValue (assocGet row al) attr))]
    exact mapExcept_post _ (fun x => x.1 ++ ":" ++ formatAttributeValue (assocGet row x.1) x.2) _ _ hc
  have hlen : ci.length = columns.length := mapExcept_ok_length _ _ _ hc
  unfold processRow processRowR
  rw [h1, h2, h3]
  have hkey : joinSep "," (ri.map (fun x => x.1 ++ ":" ++ jsStringOfRaw (assocGet row x.1)))
      = rowKeyR ri row := rfl
  have hck : joinSep "|" (colSegmentsR ci row) = colKeyR ci row := rfl
  simp only [hkey, hck]
  by_cases hcols : columns.length = 0
  · have hci : ci = [] := by
      cases ci with
      | nil => rfl
      | cons c cs => rw [hcols] at hlen; simp at hlen
    subst hci
    simp only [hcols, if_true, List.isEmpty]
    cases hget : assocGet st.resultMap (rowKeyR ri row) <;>
      simp only [processTarget, hget] <;> rfl
  · have hci : ci ≠ [] := by
      intro hnil
      rw [hnil] at hlen
      simp at hlen
      exact hcols (by simp [← hlen])
    have hcolsne : columns.length > 0 := Nat.pos_of_ne_zero hcols
    have hciF : ci.isEmpty = false := by
      cases ci with
      | nil => exact absurd rfl hci
      | cons c cs => rfl
    simp only [if_neg hcols, if_pos hcolsne, hciF, Bool.false_eq_true, if_false]
    cases hget : assocGet st.resultMap (rowKeyR ri row) <;>
      simp only [processTarget, hget]

/-- Once every row path resolves, densification of one accumulated row is
the resolved densification. -/
theorem densifyRow_resolved (model : SemanticModel) (dimensions : List Dimension)
    (rows metrics : List String) (columnSet : List String)
    (ri : List (String × Option Attribute))
    (hr : resolvePaths model dimensions rows = .ok ri) (row : RowData) :
    densifyRow model dimensions rows metrics columnSet row =
      .ok (densifyR ri metrics columnSet row) := by
  have h2 : foldExcept (fun (acc : RowData) rowAttName =>
      match getAttributeRef rowAttName model with
      | .error e => .error e
      | .ok attRef =>
        match attributeAlias dimensions attRef with
        | .error e => .error e
        | .ok attAlias =>
          Except.ok (match assocGet row attAlias with
            | some v => assocSet acc attAlias v
            | none => acc)) [] rows
      = .ok (ri.foldl (fun acc x =>
          match assocGet row x.1 with
          | some v => assocSet acc x.1 v
          | none => acc) []) := by
    rw [foldExcept_congr _ (fun (acc : RowData) p => exceptThen
        (fun x => match assocGet row x.1 with
          | some v => assocSet acc x.1 v
          | none => acc)
        (resolvePath model dimensions p)) rows
      (fun acc p _ => resolvePath_inline model dimensions p
        (fun al _ => match assocGet row al with
          | some v => assocSet acc al v
          | none => acc)) []]
    exact foldExcept_resolved _ (fun acc x =>
      match assocGet row x.1 with
      | some v => assocSet acc x.1 v
      | none => acc) _ _ hr []
  have h3 : ri.foldl (fun acc x =>
      match assocGet row x.1 with
      | some v => assocSet acc x.1 v
      | none => acc) ([] : RowData) =
    ri.foldl (fun acc x => setIfSome acc x.1 (assocGet row x.1)) [] := by
    refine foldl_congr_mem _ _ ri ?_ []
    intro acc x _
    cases hv : assocGet row x.1 with
    | some v => simp [setIfSome, hv]
    | none => simp [setIfSome, hv]
  unfold densifyRow densifyR
  rw [h2, h3]
  by_cases hlen : columnSet.length = 0
  · simp only [if_pos hlen]
    cases hm : assocGet row "metrics" with
    | some v => simp only [hm, setIfSome]
    | none => simp only [hm, setIfSome]
  · simp only [if_neg hlen]

/-- `pivot`, once the model is found and every requested path resolves, is
the resolved accumulation pass followed by the pure densification map. -/
theorem pivot_resolved (data : List RawDataRow) (schema : Schema) (mn : String)
    (q : QueryRequest) (model : SemanticModel)
    (ri ci : List (String × Option Attribute))
    (hm : schema.semantic_models.find? (fun m => m.name = mn) = some model)
    (hr : resolvePaths model (model.dimensions.getD []) (q.rows.getD []) = .ok ri)
    (hc : resolvePaths model (model.dimensions.getD []) (q.columns.getD []) = .ok ci) :
    pivot data schema mn q =
      match foldExcept (processRowR ri ci (q.metrics.getD [])) ⟨[], []⟩ data with
      | .error e => .error e
      | .ok st => .ok (st.resultMap.map (fun kv =>
          densifyR ri (q.metrics.getD []) (jsSort (dedupKeepFirst st.columnArr)) kv.2)) := by
  unfold pivot
  rw [hm]
  simp only []
  rw [foldExcept_congr _ (processRowR ri ci (q.metrics.getD [])) data
    (fun st row _ => processRow_resolved model (model.dimensions.getD [])
      (q.rows.getD []) (q.columns.getD []) (q.metrics.getD []) ri ci hr hc st row)
    ⟨[], []⟩]
  cases foldExcept (processRowR ri ci (q.metrics.getD [])) ⟨[], []⟩ data with
  | error e => rfl
  | ok st =>
    simp only []
    rw [mapExcept_congr _ (fun r => Except.ok
        (densifyR ri (q.metrics.getD []) (jsSort (dedupKeepFirst st.columnArr)) r))
      (st.resultMap.map (fun kv => kv.2))
      (fun r _ => densifyRow_resolved model (model.dimensions.getD [])
        (q.rows.getD []) (q.metrics.getD []) (jsSort (dedupKeepFirst st.columnArr)) ri hr r)]
    rw [mapExcept_pure_ok]
    simp [List.map_map, Function.comp]

/-! Association-list lemmas. -/

theorem assocGet_set_same {α : Type} (m : List (String × α)) (k : String) (v : α) :
    assocGet (assocSet m k v) k = some v := by
  induction m with
  | nil => simp [assocGet, assocSet]
  | cons kv rest ih =>
    obtain ⟨k', v'⟩ := kv
    by_cases h : k' = k
    · subst h
      simp [assocGet, assocSet]
    · simp [assocGet, assocSet, h, ih]

theorem assocGet_set_ne {α : Type} (m : List (String × α)) (k k' : String) (v : α)
    (h : k' ≠ k) : assocGet (assocSet m k v) k' = assocGet m k' := by
  have hk : k ≠ k' := Ne.symm h
  induction m with
  | nil => simp [assocGet, assocSet, hk]
  | cons kv rest ih =>
    obtain ⟨k0, v0⟩ := kv
    by_cases h0 : k0 = k
    · subst h0
      simp [assocGet, assocSet, hk]
    · simp [assocGet, assocSet, h0, ih]

theorem assocGet_isSome_iff {α : Type} (m : List (String × α)) (k : String) :
    (assocGet m k).isSome ↔ k ∈ m.map Prod.fst := by
  induction m with
  | nil => simp [assocGet]
  | cons kv rest ih =>
    obtain ⟨k', v'⟩ := kv
    by_cases h : k' = k
    · subst h
      simp [assocGet]
    · simp only [assocGet, if_neg h, List.map_cons, List.mem_cons]
      rw [ih]
      constructor
      · exact Or.inr
      · rintro (he | hm)
        · exact absurd he.symm h
        · exact hm

theorem assocGet_eq_none_iff {α : Type} (m : List (String × α)) (k : String) :
    assocGet m k = none ↔ k ∉ m.map Prod.fst := by
  rw [← assocGet_isSome_iff]
  cases assocGet m k <;> simp

theorem assocSet_keys {α : Type} (m : List (String × α)) (k : String) (v : α) :
    (assocSet m k v).map Prod.fst =
      if k ∈ m.map Prod.fst then m.map Prod.fst else m.map Prod.fst ++ [k] := by
  induction m with
  | nil => simp [assocSet]
  | cons kv rest ih =>
    obtain ⟨k', v'⟩ := kv
    by_cases h : k' = k
    · subst h
      simp [assocSet]
    · simp only [assocSet, if_neg h, List.map_cons]
      rw [ih]
      have hne : ¬(k = k') := fun he => h he.symm
      by_cases hm : k ∈ rest.map Prod.fst
      · simp [hm, hne]
      · simp [hm, hne]

/-! Pure fold-of-writes lemmas. -/

theorem foldlSet_get_not_mem {α β : Type} (kf : β → String) (vf : β → α) :
    ∀ (l : List β) (k : String), k ∉ l.map kf →
      ∀ init, assocGet (l.foldl (fun acc x => assocSet acc (kf x) (vf x)) init) k =
        assocGet init k := by
  intro l
  induction l with
  | nil => intro k _ init; rfl
  | cons x xs ih =>
    intro k h init
    simp only [List.map_cons, List.mem_cons] at h
    push_neg at h
    simp only [List.foldl]
    rw [ih k h.2 (assocSet init (kf x) (vf x))]
    exact assocGet_set_ne init (kf x) k (vf x) h.1

theorem foldlSet_get_mem_const {α β : Type} (kf : β → String) (vf : β → α) :
    ∀ (l : List β) (k : String) (w : α),
      (∀ x ∈ l, kf x = k → vf x = w) → (∃ x ∈ l, kf x = k) →
      ∀ init, assocGet (l.foldl (fun acc x => assocSet acc (kf x) (vf x)) init) k =
        some w := by
  intro l
  induction l with
  | nil =>
    intro k w _ hex init
    simp at hex
  | cons x xs ih =>
    intro k w hconst hex init
    simp only [List.foldl]
    by_cases hxs : ∃ y ∈ xs, kf y = k
    · exact ih k w (fun z hz hkz => hconst z (by simp [hz]) hkz) hxs _
    · have hnm : k ∉ xs.map kf := by
        intro hmem
        obtain ⟨y, hy, hky⟩ := List.exists_of_mem_map hmem
        exact hxs ⟨y, hy, hky⟩
      rw [foldlSet_get_not_mem kf vf xs k hnm]
      obtain ⟨y, hy, hky⟩ := hex
      rcases List.mem_cons.mp hy with hy1 | hy2
      · subst hy1
        have h1 : assocGet (assocSet init (kf y) (vf y)) k = some (vf y) := by
          rw [hky]
          exact assocGet_set_same _ _ _
        rw [h1, hconst y (by simp) hky]
      · exact absurd ⟨y, hy2, hky⟩ hxs

theorem foldlSet_isSome {α β : Type} (kf : β → String) (vf : β → α)
    (l : List β) (k : String) :
    ∀ init, (assocGet (l.foldl (fun acc x => assocSet acc (kf x) (vf x)) init) k).isSome ↔
      k ∈ l.map kf ∨ (assocGet init k).isSome := by
  induction l with
  | nil => intro init; simp
  | cons x xs ih =>
    intro init
    simp only [List.foldl, List.map_cons, List.mem_cons]
    rw [ih (assocSet init (kf x) (vf x))]
    by_cases h : kf x = k
    · subst h
      simp [assocGet_set_same]
    · rw [assocGet_set_ne _ _ _ _ (fun hh => h hh.symm)]
      constructor
      · rintro (hm | hs)
        · exact Or.inl (Or.inr hm)
        · exact Or.inr hs
      · rintro ((he | hm) | hs)
        · exact absurd he.symm h
        · exact Or.inl hm
        · exact Or.inr hs

theorem foldlSet_get_cases {α β : Type} (kf : β → String) (vf : β → α)
    (l : List β) (k : String) (v : α) :
    ∀ init, assocGet (l.foldl (fun acc x => assocSet acc (kf x) (vf x)) init) k = some v →
      (∃ x ∈ l, kf x = k ∧ vf x = v) ∨ assocGet init k = some v := by
  induction l with
  | nil => intro init h; exact Or.inr h
  | cons x xs ih =>
    intro init h
    simp only [List.foldl] at h
    rcases ih (assocSet init (kf x) (vf x)) h with hmem | hinit
    · obtain ⟨y, hy, hk, hv⟩ := hmem
      exact Or.inl ⟨y, by simp [hy], hk, hv⟩
    · by_cases hk : kf x = k
      · subst hk
        rw [assocGet_set_same] at hinit
        exact Or.inl ⟨x, by simp, rfl, by injection hinit⟩
      · rw [assocGet_set_ne _ _ _ _ (fun hh => hk hh.symm)] at hinit
        exact Or.inr hinit

/-! Deduplication and sorting lemmas. -/

theorem stepKey_mem (ks : List String) (k k' : String) :
    k' ∈ stepKey ks k ↔ k' ∈ ks ∨ k' = k := by
  unfold stepKey
  by_cases h : k ∈ ks
  · simp only [if_pos h]
    constructor
    · exact Or.inl
    · rintro (hm | he)
      · exact hm
      · exact he ▸ h
  · simp [if_neg h]

theorem foldl_stepKey_mem (l : List String) (k : String) :
    ∀ acc, k ∈ l.foldl stepKey acc ↔ k ∈ acc ∨ k ∈ l := by
  induction l with
  | nil => intro acc; simp
  | cons x xs ih =>
    intro acc
    simp only [List.foldl]
    rw [ih (stepKey acc x), stepKey_mem]
    simp only [List.mem_cons]
    constructor
    · rintro ((hm | he) | hl)
      · exact Or.inl hm
      · exact Or.inr (Or.inl he)
      · exact Or.inr (Or.inr hl)
    · rintro (hm | he | hl)
      · exact Or.inl (Or.inl hm)
      · exact Or.inl (Or.inr he)
      · exact Or.inr hl

theorem mem_dedupKeepFirst (l : List String) (k : String) :
    k ∈ dedupKeepFirst l ↔ k ∈ l := by
  unfold dedupKeepFirst
  rw [foldl_stepKey_mem]
  simp

theorem stepKey_nodup (ks : List String) (k : String) (h : ks.Nodup) :
    (stepKey ks k).Nodup := by
  unfold stepKey
  by_cases hm : k ∈ ks
  · simpa [hm]
  · simp [hm, List.nodup_append, h]

theorem foldl_stepKey_nodup (l : List String) :
    ∀ acc, acc.Nodup → (l.foldl stepKey acc).Nodup := by
  induction l with
  | nil => intro acc h; exact h
  | cons x xs ih =>
    intro acc h
    exact ih (stepKey acc x) (stepKey_nodup acc x h)

theorem dedupKeepFirst_nodup (l : List String) : (dedupKeepFirst l).Nodup :=
  foldl_stepKey_nodup l [] List.nodup_nil

theorem insertLE_perm (x : String) (l : List String) :
    (insertLE x l).Perm (x :: l) := by
  induction l with
  | nil => simp [insertLE]
  | cons y ys ih =>
    unfold insertLE
    by_cases h : jsLeString x y
    · simp [h]
    · simp only [if_neg h]
      exact (List.Perm.cons y ih).trans (List.Perm.swap x y ys)

theorem jsSort_perm (l : List String) : (jsSort l).Perm l := by
  induction l with
  | nil => simp [jsSort]
  | cons x xs ih =>
    unfold jsSort
    exact (insertLE_perm x (jsSort xs)).trans (List.Perm.cons x ih)

theorem mem_jsSort (l : List String) (k : String) : k ∈ jsSort l ↔ k ∈ l :=
  (jsSort_perm l).mem_iff

theorem jsSort_nodup (l : List String) (h : l.Nodup) : (jsSort l).Nodup :=
  ((jsSort_perm l).nodup_iff).mpr h

/-! Structure of the resolved accumulation pass. -/

theorem processRowR_ok_elim (ri ci : List (String × Option Attribute))
    (ms : List String) (st : Pass1State) (row : RawDataRow) (st' : Pass1State)
    (h : processRowR ri ci ms st row = .ok st') :
    ∃ r1, st' = ⟨assocSet st.resultMap (rowKeyR ri row) r1,
        if ci.isEmpty then st.columnArr else st.columnArr ++ [colKeyR ci row]⟩ ∧
      ((ci.isEmpty = true ∧ ∃ vals nv,
          mapExcept (fun m => metricValueNoColumns (assocGet row m)) ms = .ok vals ∧
          pushMetrics (assocGet (processTarget ri st row) "metrics") vals = .ok nv ∧
          r1 = assocSet (processTarget ri st row) "metrics" nv) ∨
       (ci.isEmpty = false ∧ ∃ nv,
          pushMetrics (assocGet (processTarget ri st row) (colKeyR ci row))
            (ms.map (fun m => metricValueColumns (assocGet row m))) = .ok nv ∧
          r1 = assocSet (processTarget ri st row) (colKeyR ci row) nv)) := by
  unfold processRowR at h
  by_cases hci : ci.isEmpty
  · simp only [hci, if_true] at h
    cases hmv : mapExcept (fun m => metricValueNoColumns (assocGet row m)) ms with
    | error e =>
      simp only [hmv] at h
      exact absurd h (by simp)
    | ok vals =>
      simp only [hmv] at h
      cases hpm : pushMetrics (assocGet (processTarget ri st row) "metrics") vals with
      | error e =>
        simp only [hpm] at h
        exact absurd h (by simp)
      | ok nv =>
        simp only [hpm, Except.ok.injEq] at h
        refine ⟨assocSet (processTarget ri st row) "metrics" nv, ?_, Or.inl ⟨hci, vals, nv, rfl, hpm, rfl⟩⟩
        rw [← h]
        simp [hci]
  · have hciF : ci.isEmpty = false := by
      cases hb : ci.isEmpty
      · rfl
      · exact absurd hb hci
    simp only [hciF, Bool.false_eq_true, if_false] at h
    cases hpm : pushMetrics (assocGet (processTarget ri st row) (colKeyR ci row))
        (ms.map (fun m => metricValueColumns (assocGet row m))) with
    | error e =>
      simp only [hpm] at h
      exact absurd h (by simp)
    | ok nv =>
      simp only [hpm, Except.ok.injEq] at h
      refine ⟨assocSet (processTarget ri st row) (colKeyR ci row) nv, ?_,
        Or.inr ⟨hciF, nv, rfl, rfl⟩⟩
      rw [← h]
      simp [hciF]

theorem runR_keys (ri ci : List (String × Option Attribute)) (ms : List String) :
    ∀ (data : List RawDataRow) (st st' : Pass1State),
      foldExcept (processRowR ri ci ms) st data = .ok st' →
      st'.resultMap.map Prod.fst =
        (data.map (rowKeyR ri)).foldl stepKey (st.resultMap.map Prod.fst) := by
  intro data
  induction data with
  | nil =>
    intro st st' h
    simp only [foldExcept] at h
    simp only [Except.ok.injEq] at h
    subst h
    rfl
  | cons x xs ih =>
    intro st st' h
    rw [foldExcept_cons] at h
    cases hstep : processRowR ri ci ms st x with
    | error e => rw [hstep] at h; simp at h
    | ok st1 =>
      rw [hstep] at h
      obtain ⟨r1, hst1, _⟩ := processRowR_ok_elim ri ci ms st x st1 hstep
      have hkeys : st1.resultMap.map Prod.fst = stepKey (st.resultMap.map Prod.fst) (rowKeyR ri x) := by
        rw [hst1]
        simp only []
        rw [assocSet_keys]
        rfl
      rw [List.map_cons, List.foldl_cons, ← hkeys]
      exact ih st1 st' h

theorem runR_columnArr (ri ci : List (String × Option Attribute)) (ms : List String) :
    ∀ (data : List RawDataRow) (st st' : Pass1State),
      foldExcept (processRowR ri ci ms) st data = .ok st' →
      st'.columnArr = st.columnArr ++
        (if ci.isEmpty then [] else data.map (colKeyR ci)) := by
  intro data
  induction data with
  | nil =>
    intro st st' h
    simp only [foldExcept, Except.ok.injEq] at h
    subst h
    cases ci.isEmpty <;> simp
  | cons x xs ih =>
    intro st st' h
    rw [foldExcept_cons] at h
    cases hstep : processRowR ri ci ms st x with
    | error e => rw [hstep] at h; simp at h
    | ok st1 =>
      rw [hstep] at h
      obtain ⟨r1, hst1, _⟩ := processRowR_ok_elim ri ci ms st x st1 hstep
      have harr : st1.columnArr =
          st.columnArr ++ (if ci.isEmpty then [] else [colKeyR ci x]) := by
        rw [hst1]
        cases hci : ci.isEmpty <;> simp
      rw [ih st1 st' h, harr]
      cases hci : ci.isEmpty <;> simp

/-- Entries at other row keys are untouched by one step. -/
theorem processRowR_get_other (ri ci : List (String × Option Attribute))
    (ms : List String) (st : Pass1State) (row : RawDataRow) (st' : Pass1State)
    (h : processRowR ri ci ms st row = .ok st') (k : String)
    (hk : k ≠ rowKeyR ri row) :
    assocGet st'.resultMap k = assocGet st.resultMap k := by
  obtain ⟨r1, hst1, _⟩ := processRowR_ok_elim ri ci ms st row st' h
  rw [hst1]
  exact assocGet_set_ne _ _ _ _ hk

/-- A field of an existing pivot row survives the rest of the pass provided
it is neither `"metrics"` nor any later column key. -/
theorem runR_field_stable (ri ci : List (String × Option Attribute)) (ms : List String) :
    ∀ (data : List RawDataRow) (st st' : Pass1State),
      foldExcept (processRowR ri ci ms) st data = .ok st' →
      ∀ k rrow, assocGet st.resultMap k = some rrow →
      ∀ key, key ≠ "metrics" →
      (∀ raw ∈ data, ci.isEmpty = false → key ≠ colKeyR ci raw) →
      ∃ rrow', assocGet st'.resultMap k = some rrow' ∧
        assocGet rrow' key = assocGet rrow key := by
  intro data
  induction data with
  | nil =>
    intro st st' h k rrow hget key _ _
    simp only [foldExcept, Except.ok.injEq] at h
    subst h
    exact ⟨rrow, hget, rfl⟩
  | cons x xs ih =>
    intro st st' h k rrow hget key hkm hkc
    rw [foldExcept_cons] at h
    cases hstep : processRowR ri ci ms st x with
    | error e => rw [hstep] at h; simp at h
    | ok st1 =>
      rw [hstep] at h
      by_cases hkx : k = rowKeyR ri x
      · obtain ⟨r1, hst1, hbr⟩ := processRowR_ok_elim ri ci ms st x st1 hstep
        have htgt : processTarget ri st x = rrow := by
          unfold processTarget
          rw [← hkx, hget]
        have hget1 : assocGet st1.resultMap k = some r1 := by
          rw [hst1]
          simp only []
          rw [hkx]
          exact assocGet_set_same _ _ _
        have hval : assocGet r1 key = assocGet rrow key := by
          rcases hbr with ⟨hci, vals, nv, _, _, hr1⟩ | ⟨hci, nv, _, hr1⟩
          · rw [hr1, htgt]
            exact assocGet_set_ne _ _ _ _ hkm
          · rw [hr1, htgt]
            exact assocGet_set_ne _ _ _ _ (hkc x (by simp) hci)
        obtain ⟨rrow', hget', hval'⟩ := ih st1 st' h k r1 hget1 key hkm
          (fun raw hraw hcif => hkc raw (by simp [hraw]) hcif)
        exact ⟨rrow', hget', hval'.trans hval⟩
      · have hget1 : assocGet st1.resultMap k = some rrow := by
          rw [processRowR_get_other ri ci ms st x st1 hstep k hkx]
          exact hget
        exact ih st1 st' h k rrow hget1 key hkm
          (fun raw hraw hcif => hkc raw (by simp [hraw]) hcif)

/-! Helper facts about formatting, fresh rows, and aliases. -/

theorem formatAttributeValue_null (att : Option Attribute) :
    formatAttributeValue (some .null) att = "" := rfl

theorem formatAttributeValue_undef (att : Option Attribute) :
    formatAttributeValue none att = "" := rfl

theorem newRowR_def (ri : List (String × Option Attribute)) (row : RawDataRow) :
    newRowR ri row = ri.foldl (fun acc pi => assocSet acc pi.1
      (RowVal.str (formatAttributeValue (assocGet row pi.1) pi.2))) [] := rfl

theorem newRowR_get_not_mem (ri : List (String × Option Attribute)) (row : RawDataRow)
    (key : String) (h : key ∉ ri.map Prod.fst) :
    assocGet (newRowR ri row) key = none := by
  rw [newRowR_def]
  rw [foldlSet_get_not_mem (fun pi => pi.1)
    (fun pi => RowVal.str (formatAttributeValue (assocGet row pi.1) pi.2)) ri key h []]
  rfl

theorem newRowR_get_isSome (ri : List (String × Option Attribute)) (row : RawDataRow)
    (pi : String × Option Attribute) (h : pi ∈ ri) :
    (assocGet (newRowR ri row) pi.1).isSome := by
  rw [newRowR_def]
  rw [foldlSet_isSome (fun pi => pi.1)
    (fun pi => RowVal.str (formatAttributeValue (assocGet row pi.1) pi.2)) ri pi.1 []]
  exact Or.inl (List.mem_map_of_mem _ h)

theorem newRowR_get_cases (ri : List (String × Option Attribute)) (row : RawDataRow)
    (key : String) (v : RowVal) (h : assocGet (newRowR ri row) key = some v) :
    ∃ pi ∈ ri, pi.1 = key ∧ v = RowVal.str (formatAttributeValue (assocGet row pi.1) pi.2) := by
  rw [newRowR_def] at h
  rcases foldlSet_get_cases (fun pi => pi.1)
      (fun pi => RowVal.str (formatAttributeValue (assocGet row pi.1) pi.2))
      ri key v [] h with hmem | hinit
  · obtain ⟨pi, hpi, hk, hv⟩ := hmem
    exact ⟨pi, hpi, hk, hv.symm⟩
  · simp [assocGet] at hinit

/-- A fresh pivot row's field at an alias whose raw value is `null` or
absent is the empty string, whatever the attribute type. -/
theorem newRowR_get_nullish (ri : List (String × Option Attribute)) (row : RawDataRow)
    (al : String) (hmem : ∃ pi ∈ ri, pi.1 = al)
    (hval : assocGet row al = some .null ∨ assocGet row al = none) :
    assocGet (newRowR ri row) al = some (RowVal.str "") := by
  rw [newRowR_def]
  refine foldlSet_get_mem_const (fun pi => pi.1)
    (fun pi => RowVal.str (formatAttributeValue (assocGet row pi.1) pi.2))
    ri al (RowVal.str "") ?_ hmem []
  intro pi _ hk
  dsimp only at hk ⊢
  rw [hk]
  rcases hval with hv | hv <;>
    simp [hv, formatAttributeValue_null, formatAttributeValue_undef]

theorem assocSet_isSome_mono {α : Type} (m : List (String × α)) (k key : String)
    (v : α) (h : (assocGet m key).isSome) :
    (assocGet (assocSet m k v) key).isSome := by
  by_cases hk : key = k
  · subst hk
    rw [assocGet_set_same]
    rfl
  · rw [assocGet_set_ne _ _ _ _ hk]
    exact h

theorem assocGet_of_mem_nodup {α : Type} :
    ∀ (m : List (String × α)), (m.map Prod.fst).Nodup →
      ∀ kv ∈ m, assocGet m kv.1 = some kv.2 := by
  intro m
  induction m with
  | nil => intro _ kv h; simp at h
  | cons hd tl ih =>
    intro hnd kv hm
    obtain ⟨k0, v0⟩ := hd
    simp only [List.map_cons, List.nodup_cons] at hnd
    rcases List.mem_cons.mp hm with he | ht
    · subst he
      simp [assocGet]
    · have hne : k0 ≠ kv.1 := by
        intro hk
        exact hnd.1 (hk ▸ List.mem_map_of_mem Prod.fst ht)
      simp only [assocGet, if_neg hne]
      exact ih hnd.2 kv ht

/-- The characters of the canonical alias always include a dot, so an alias
can never collide with the reserved `"metrics"` key. -/
theorem attributeAlias_has_dot (dimensions : List Dimension) (ref : AttributeRef)
    (al : String) (h : attributeAlias dimensions ref = .ok al) : '.' ∈ al.data := by
  have hmid : ∀ a b : String, '.' ∈ (a ++ "." ++ b).data := by
    intro a b
    have : (a ++ "." ++ b).data = a.data ++ ('.' :: b.data) :=
      String.data_append (a ++ ".") b ▸ (by
        rw [String.data_append a "."]
        simp)
    rw [this]
    simp
  unfold attributeAlias at h
  cases href : ref.dimension.attributes with
  | some attrs =>
    simp only [href] at h
    cases hfind : attrs.find? (fun a => a.name = ref.attrName) with
    | some att =>
      simp only [hfind] at h
      cases hq : ref.datasetGroupQualifier with
      | some q =>
        simp only [hq] at h
        simp only [Except.ok.injEq] at h
        subst h
        have := hmid (q ++ "." ++ ref.dimension.name) att.name
        exact this
      | none =>
        simp only [hq] at h
        simp only [Except.ok.injEq] at h
        subst h
        exact hmid ref.dimension.name att.name
    | none =>
      simp only [hfind] at h
      cases hd : dimensions.find? (fun d => d.name = ref.dimension.name) with
      | none => simp only [hd] at h; exact absurd h (by simp)
      | some dimension =>
        simp only [hd] at h
        cases ha : dimension.attributes.find? (fun a => a.name = ref.attrName) with
        | none => simp only [ha] at h; exact absurd h (by simp)
        | some att =>
          simp only [ha] at h
          cases hq : ref.datasetGroupQualifier with
          | some q =>
            simp only [hq] at h
            simp only [Except.ok.injEq] at h
            subst h
            have := hmid (q ++ "." ++ (dimension.aliasName.getD dimension.name)) att.name
            exact this
          | none =>
            simp only [hq] at h
            simp only [Except.ok.injEq] at h
            subst h
            exact hmid (dimension.aliasName.getD dimension.name) att.name
  | none =>
    simp only [href] at h
    cases hd : dimensions.find? (fun d => d.name = ref.dimension.name) with
    | none => simp only [hd] at h; exact absurd h (by simp)
    | some dimension =>
      simp only [hd] at h
      cases ha : dimension.attributes.find? (fun a => a.name = ref.attrName) with
      | none => simp only [ha] at h; exact absurd h (by simp)
      | some att =>
        simp only [ha] at h
        cases hq : ref.datasetGroupQualifier with
        | some q =>
          simp only [hq] at h
          simp only [Except.ok.injEq] at h
          subst h
          have := hmid (q ++ "." ++ (dimension.aliasName.getD dimension.name)) att.name
          exact this
        | none =>
          simp only [hq] at h
          simp only [Except.ok.injEq] at h
          subst h
          exact hmid (dimension.aliasName.getD dimension.name) att.name

theorem resolvePath_alias_ne_metrics (model : SemanticModel)
    (dimensions : List Dimension) (p : String) (x : String × Option Attribute)
    (h : resolvePath model dimensions p = .ok x) : x.1 ≠ "metrics" := by
  unfold resolvePath at h
  cases hr : getAttributeRef p model with
  | error e => simp only [hr] at h; exact absurd h (by simp)
  | ok ref =>
    simp only [hr] at h
    cases ha : attributeAlias dimensions ref with
    | error e => simp only [ha] at h; exact absurd h (by simp)
    | ok al =>
      simp only [ha, Except.ok.injEq] at h
      subst h
      intro hmet
      have hdot := attributeAlias_has_dot dimensions ref al ha
      simp only [] at hmet
      rw [hmet] at hdot
      simp at hdot

theorem resolvePaths_alias_ne_metrics (model : SemanticModel)
    (dimensions : List Dimension) (ps : List String)
    (infos : List (String × Option Attribute))
    (h : resolvePaths model dimensions ps = .ok infos) :
    ∀ pi ∈ infos, pi.1 ≠ "metrics" := by
  unfold resolvePaths at h
  induction ps generalizing infos with
  | nil =>
    simp [mapExcept] at h
    subst h
    simp
  | cons p ps ih =>
    rw [mapExcept_cons] at h
    cases hp : resolvePath model dimensions p with
    | error e => rw [hp] at h; simp at h
    | ok x =>
      rw [hp] at h
      cases hps : mapExcept (resolvePath model dimensions) ps with
      | error e => rw [hps] at h; simp at h
      | ok ys =>
        rw [hps] at h
        simp only [Except.ok.injEq] at h
        subst h
        intro pi hpi
        rcases List.mem_cons.mp hpi with he | ht
        · subst he
          exact resolvePath_alias_ne_metrics model dimensions p pi hp
        · exact ih ys hps pi ht

/-! The accumulation-pass invariant used by the densification claims. -/

/-- Invariant of the accumulation pass after processing `processed`: an
entry exists exactly for the row keys seen so far; every entry carries all
row-attribute alias fields; and, when column paths are requested, an entry
has a field outside the alias list exactly for the column keys contributed
by raw rows sharing its row key. -/
def Pass1Inv (ri ci : List (String × Option Attribute))
    (processed : List RawDataRow) (st : Pass1State) : Prop :=
  (∀ k, (assocGet st.resultMap k).isSome ↔ ∃ raw ∈ processed, rowKeyR ri raw = k) ∧
  (∀ k rrow, assocGet st.resultMap k = some rrow →
    ∀ pi ∈ ri, (assocGet rrow pi.1).isSome) ∧
  (ci.isEmpty = false → ∀ k rrow, assocGet st.resultMap k = some rrow →
    ∀ key, key ∉ ri.map Prod.fst →
      ((assocGet rrow key).isSome ↔
        ∃ raw ∈ processed, rowKeyR ri raw = k ∧ colKeyR ci raw = key))

theorem pass1Inv_nil (ri ci : List (String × Option Attribute)) :
    Pass1Inv ri ci [] ⟨[], []⟩ := by
  refine ⟨?_, ?_, ?_⟩
  · intro k
    simp [assocGet]
  · intro k rrow h
    simp [assocGet] at h
  · intro _ k rrow h
    simp [assocGet] at h

theorem pass1Inv_step (ri ci : List (String × Option Attribute)) (ms : List String)
    (processed : List RawDataRow) (st : Pass1State) (row : RawDataRow)
    (st' : Pass1State) (hinv : Pass1Inv ri ci processed st)
    (h : processRowR ri ci ms st row = .ok st') :
    Pass1Inv ri ci (processed ++ [row]) st' := by
  obtain ⟨hseen, hfields, hcontrib⟩ := hinv
  obtain ⟨r1, hst1, hbr⟩ := processRowR_ok_elim ri ci ms st row st' h
  have hmap : st'.resultMap = assocSet st.resultMap (rowKeyR ri row) r1 := by
    rw [hst1]
  -- the value written at the row key keeps every field of the target and
  -- adds exactly one key ("metrics" or the column key)
  have hr1fields : ∀ pi ∈ ri, (assocGet r1 pi.1).isSome := by
    intro pi hpi
    have htgt : (assocGet (processTarget ri st row) pi.1).isSome := by
      unfold processTarget
      cases hget : assocGet st.resultMap (rowKeyR ri row) with
      | some rrow => exact hfields _ rrow hget pi hpi
      | none => exact newRowR_get_isSome ri row pi hpi
    rcases hbr with ⟨_, vals, nv, _, _, hr1⟩ | ⟨_, nv, _, hr1⟩ <;>
      · rw [hr1]
        exact assocSet_isSome_mono _ _ _ _ htgt
  refine ⟨?_, ?_, ?_⟩
  · intro k
    by_cases hk : k = rowKeyR ri row
    · subst hk
      rw [hmap, assocGet_set_same]
      simp only [Option.isSome_some, true_iff]
      exact ⟨row, by simp, rfl⟩
    · rw [hmap, assocGet_set_ne _ _ _ _ hk, hseen k]
      constructor
      · rintro ⟨raw, hraw, hkey⟩
        exact ⟨raw, by simp [hraw], hkey⟩
      · rintro ⟨raw, hraw, hkey⟩
        rcases List.mem_append.mp hraw with hm | hm
        · exact ⟨raw, hm, hkey⟩
        · simp only [List.mem_singleton] at hm
          subst hm
          exact absurd hkey.symm hk
  · intro k rrow hget pi hpi
    by_cases hk : k = rowKeyR ri row
    · subst hk
      rw [hmap, assocGet_set_same] at hget
      injection hget with hget
      subst hget
      exact hr1fields pi hpi
    · rw [hmap, assocGet_set_ne _ _ _ _ hk] at hget
      exact hfields k rrow hget pi hpi
  · intro hci k rrow hget key hkey
    have hbr2 : ∃ nv, pushMetrics (assocGet (processTarget ri st row) (colKeyR ci row))
        (ms.map (fun m => metricValueColumns (assocGet row m))) = .ok nv ∧
        r1 = assocSet (processTarget ri st row) (colKeyR ci row) nv := by
      rcases hbr with ⟨hcit, _⟩ | ⟨_, nv, hpm, hr1⟩
      · rw [hcit] at hci
        exact absurd hci (by simp)
      · exact ⟨nv, hpm, hr1⟩
    obtain ⟨nv, hpm, hr1⟩ := hbr2
    by_cases hk : k = rowKeyR ri row
    · subst hk
      rw [hmap, assocGet_set_same] at hget
      injection hget with hget
      subst hget
      by_cases hkc : key = colKeyR ci row
      · subst hkc
        rw [hr1, assocGet_set_same]
        constructor
        · intro _
          exact ⟨row, by simp, rfl, rfl⟩
        · intro _
          rfl
      · rw [hr1, assocGet_set_ne _ _ _ _ hkc]
        cases hget0 : assocGet st.resultMap (rowKeyR ri row) with
        | some rrow0 =>
          have htgt : processTarget ri st row = rrow0 := by
            unfold processTarget
            rw [hget0]
          rw [htgt]
          rw [hcontrib hci _ rrow0 hget0 key hkey]
          constructor
          · rintro ⟨raw, hraw, hk1, hk2⟩
            exact ⟨raw, by simp [hraw], hk1, hk2⟩
          · rintro ⟨raw, hraw, hk1, hk2⟩
            rcases List.mem_append.mp hraw with hm | hm
            · exact ⟨raw, hm, hk1, hk2⟩
            · simp only [List.mem_singleton] at hm
              subst hm
              exact absurd hk2.symm hkc
        | none =>
          have htgt : processTarget ri st row = newRowR ri row := by
            unfold processTarget
            rw [hget0]
          rw [htgt, newRowR_get_not_mem ri row key hkey]
          have hnoseen : ∀ raw ∈ processed, rowKeyR ri raw ≠ rowKeyR ri row := by
            intro raw hraw heq
            have : (assocGet st.resultMap (rowKeyR ri row)).isSome := by
              rw [hseen]
              exact ⟨raw, hraw, heq⟩
            rw [hget0] at this
            simp at this
          simp only [Option.isSome_none, Bool.false_eq_true, false_iff]
          rintro ⟨raw, hraw, hk1, hk2⟩
          rcases List.mem_append.mp hraw with hm | hm
          · exact hnoseen raw hm hk1
          · simp only [List.mem_singleton] at hm
            subst hm
            exact absurd hk2.symm hkc
    · rw [hmap, assocGet_set_ne _ _ _ _ hk] at hget
      rw [hcontrib hci k rrow hget key hkey]
      constructor
      · rintro ⟨raw, hraw, hk1, hk2⟩
        exact ⟨raw, by simp [hraw], hk1, hk2⟩
      · rintro ⟨raw, hraw, hk1, hk2⟩
        rcases List.mem_append.mp hraw with hm | hm
        · exact ⟨raw, hm, hk1, hk2⟩
        · simp only [List.mem_singleton] at hm
          subst hm
          exact absurd hk1.symm hk

theorem pass1Inv_run (ri ci : List (String × Option Attribute)) (ms : List String) :
    ∀ (data processed : List RawDataRow) (st st' : Pass1State),
      Pass1Inv ri ci processed st →
      foldExcept (processRowR ri ci ms) st data = .ok st' →
      Pass1Inv ri ci (processed ++ data) st' := by
  intro data
  induction data with
  | nil =>
    intro processed st st' hinv h
    simp only [foldExcept, Except.ok.injEq] at h
    subst h
    simpa using hinv
  | cons x xs ih =>
    intro processed st st' hinv h
    rw [foldExcept_cons] at h
    cases hstep : processRowR ri ci ms st x with
    | error e => rw [hstep] at h; simp at h
    | ok st1 =>
      rw [hstep] at h
      have hinv1 := pass1Inv_step ri ci ms processed st x st1 hinv hstep
      have := ih (processed ++ [x]) st1 st' hinv1 h
      simpa [List.append_assoc] using this

/-! Densification lemmas. -/

theorem densVal_absent (row : RowData) (ms : List String) (c : String)
    (h : assocGet row c = none) :
    densVal row ms c = .arr (List.replicate ms.length none) := by
  unfold densVal
  rw [h]

theorem foldlSetOpt_get_not_mem {α β : Type} (kf : β → String) (vf : β → Option α) :
    ∀ (l : List β) (k : String), k ∉ l.map kf →
      ∀ init, assocGet (l.foldl (fun acc x => setIfSome acc (kf x) (vf x)) init) k =
        assocGet init k := by
  intro l
  induction l with
  | nil => intro k _ init; rfl
  | cons x xs ih =>
    intro k h init
    simp only [List.map_cons, List.mem_cons] at h
    push_neg at h
    simp only [List.foldl]
    rw [ih k h.2]
    cases hv : vf x with
    | some v =>
      simp only [setIfSome, hv]
      exact assocGet_set_ne init (kf x) k v h.1
    | none => simp only [setIfSome, hv]

theorem foldlSetOpt_get_mem {α β : Type} (kf : β → String) (vf : β → Option α) :
    ∀ (l : List β) (k : String) (w : α),
      (∀ x ∈ l, kf x = k → vf x = some w) → (∃ x ∈ l, kf x = k) →
      ∀ init, assocGet (l.foldl (fun acc x => setIfSome acc (kf x) (vf x)) init) k =
        some w := by
  intro l
  induction l with
  | nil =>
    intro k w _ hex init
    simp at hex
  | cons x xs ih =>
    intro k w hconst hex init
    simp only [List.foldl]
    by_cases hxs : ∃ y ∈ xs, kf y = k
    · exact ih k w (fun z hz hkz => hconst z (by simp [hz]) hkz) hxs _
    · have hnm : k ∉ xs.map kf := by
        intro hmem
        obtain ⟨y, hy, hky⟩ := List.exists_of_mem_map hmem
        exact hxs ⟨y, hy, hky⟩
      rw [foldlSetOpt_get_not_mem kf vf xs k hnm]
      obtain ⟨y, hy, hky⟩ := hex
      rcases List.mem_cons.mp hy with hy1 | hy2
      · subst hy1
        rw [hconst y (by simp) hky]
        simp only [setIfSome]
        rw [hky]
        exact assocGet_set_same _ _ _
      · exact absurd ⟨y, hy2, hky⟩ hxs

theorem densifyR_get_colSet (ri : List (String × Option Attribute)) (ms : List String)
    (colSet : List String) (row : RowData) (c : String) (hc : c ∈ colSet) :
    assocGet (densifyR ri ms colSet row) c = some (densVal row ms c) := by
  unfold densifyR
  exact foldlSet_get_mem_const (fun x => x) (densVal row ms) colSet c (densVal row ms c)
    (fun x _ hx => by dsimp only at hx ⊢; rw [hx]) ⟨c, hc, rfl⟩ _

/-- An alias field with a present value survives densification whenever the
alias collides with neither `"metrics"` nor any observed column key. -/
theorem densifyR_get_alias (ri : List (String × Option Attribute)) (ms : List String)
    (colSet : List String) (row : RowData) (al : String) (w : RowVal)
    (hmem : ∃ pi ∈ ri, pi.1 = al) (hval : assocGet row al = some w)
    (hnc : al ∉ colSet) (hnm : al ≠ "metrics") :
    assocGet (densifyR ri ms colSet row) al = some w := by
  unfold densifyR
  rw [foldlSet_get_not_mem (fun c => c) (densVal row ms) colSet al (by simpa using hnc)]
  have halias : assocGet (ri.foldl (fun acc pi => setIfSome acc pi.1 (assocGet row pi.1))
      ([] : RowData)) al = some w := by
    refine foldlSetOpt_get_mem (fun pi => pi.1) (fun pi => assocGet row pi.1) ri al w
      ?_ hmem []
    intro pi _ hk
    dsimp only at hk ⊢
    rw [hk, hval]
  by_cases hlen : colSet.length = 0
  · simp only [if_pos hlen]
    cases hm : assocGet row "metrics" with
    | some v =>
      simp only [hm, setIfSome]
      rw [assocGet_set_ne _ _ _ _ hnm]
      exact halias
    | none =>
      simp only [hm, setIfSome]
      exact halias
  · simp only [if_neg hlen]
    exact halias

theorem densifyR_key_isSome (ri : List (String × Option Attribute)) (ms : List String)
    (colSet : List String) (row : RowData) (k : String)
    (hfields : ∀ pi ∈ ri, (assocGet row pi.1).isSome) (hcs : colSet ≠ []) :
    (assocGet (densifyR ri ms colSet row) k).isSome ↔
      k ∈ ri.map Prod.fst ∨ k ∈ colSet := by
  unfold densifyR
  have hlen : ¬colSet.length = 0 := by
    intro h0
    exact hcs (List.length_eq_zero.mp h0)
  simp only [if_neg hlen]
  have halias : ri.foldl (fun acc pi => setIfSome acc pi.1 (assocGet row pi.1))
      ([] : RowData) =
    ri.foldl (fun acc pi => assocSet acc pi.1 ((assocGet row pi.1).getD (RowVal.str ""))) [] := by
    refine foldl_congr_mem _ _ ri ?_ []
    intro acc pi hpi
    cases hv : assocGet row pi.1 with
    | some v => simp [setIfSome, hv]
    | none =>
      have hf := hfields pi hpi
      rw [hv] at hf
      simp at hf
  rw [halias]
  rw [foldlSet_isSome (fun c => c) (densVal row ms) colSet k _]
  rw [foldlSet_isSome (fun pi => pi.1) (fun pi => (assocGet row pi.1).getD (RowVal.str "")) ri k []]
  simp only [List.map_id, assocGet, Option.isSome_none, Bool.false_eq_true, or_false]
  constructor
  · rintro (hc | ha)
    · exact Or.inr (by simpa using hc)
    · exact Or.inl ha
  · rintro (ha | hc)
    · exact Or.inr ha
    · exact Or.inl (by simpa using hc)

/-! Claim theorems about attribute resolution (C4, C5, C6, C7) and the
metric-zero behaviour (C1). -/

theorem findDimRefInGroups_eq_flat (dimName : String) :
    ∀ gs : List DatasetGroup,
      findDimRefInGroups dimName gs =
        (allGroupDims gs).find? (fun d => d.name = dimName) := by
  intro gs
  induction gs with
  | nil => rfl
  | cons g rest ih =>
    have hflat : allGroupDims (g :: rest) = g.dimensions ++ allGroupDims rest := by
      unfold allGroupDims
      simp
    unfold findDimRefInGroups
    rw [hflat, List.find?_append]
    cases hg : g.dimensions.find? (fun d => d.name = dimName) with
    | some r => simp [hg]
    | none => simp [hg, ih]

/-- C4: for every 2-segment path `dimension.attribute`, resolution searches
every dataset group's dimension references in declaration order and, if a
name match exists, returns an unqualified reference to the first match;
only when no group contains the dimension is the model-level dimension list
searched, and a match there synthesizes a degenerate-style reference
carrying that dimension's inline attributes; if both searches fail,
resolution fails with the DimensionNotFound error. -/
theorem getAttributeRef_two_segment (p : String) (model : SemanticModel)
    (dimName attName : String) (h : splitDot p = [dimName, attName]) :
    getAttributeRef p model =
      match (allGroupDims model.datasetGroups).find? (fun d => d.name = dimName) with
      | some dimRef => .ok ⟨dimRef, attName, none⟩
      | none =>
        match (model.dimensions.getD []).find? (fun d => d.name = dimName) with
        | some modelDim =>
          .ok ⟨⟨modelDim.name, modelDim.label, some modelDim.attributes⟩, attName, none⟩
        | none => .error (.dimensionNotFoundInAnyGrouping dimName) := by
  unfold getAttributeRef
  simp only [h]
  rw [findDimRefInGroups_eq_flat]

/-- C6: for every 3-segment path `qualifier.dimension.attribute`,
resolution fails with GroupingNotFound when no dataset group bears the
qualifier name; when the group exists but holds no dimension reference
named like the middle segment it fails with DimensionNotFound; otherwise
it returns the matched reference carrying the qualifier. -/
theorem getAttributeRef_three_segment (p : String) (model : SemanticModel)
    (dgName dimName attName : String)
    (h : splitDot p = [dgName, dimName, attName]) :
    (model.datasetGroups.find? (fun dg => dg.name = dgName) = none →
      getAttributeRef p model = .error (.groupingNotFound dgName))
    ∧ (∀ dg, model.datasetGroups.find? (fun dg => dg.name = dgName) = some dg →
        dg.dimensions.find? (fun d => d.name = dimName) = none →
        getAttributeRef p model = .error (.dimensionNotFoundInGrouping dimName dgName))
    ∧ (∀ dg r, model.datasetGroups.find? (fun dg => dg.name = dgName) = some dg →
        dg.dimensions.find? (fun d => d.name = dimName) = some r →
        getAttributeRef p model = .ok ⟨r, attName, some dgName⟩) := by
  refine ⟨?_, ?_, ?_⟩
  · intro hg
    unfold getAttributeRef
    simp only [h, hg]
  · intro dg hg hd
    unfold getAttributeRef
    simp only [h, hg, hd]
  · intro dg r hg hd
    unfold getAttributeRef
    simp only [h, hg, hd]

/-- C7: for every path whose dot-split segment count is neither 2 nor 3,
attribute resolution fails with InvalidPathFormat and never returns a
reference. -/
theorem getAttributeRef_invalid_segments (p : String) (model : SemanticModel)
    (h2 : (splitDot p).length ≠ 2) (h3 : (splitDot p).length ≠ 3) :
    getAttributeRef p model = .error (.invalidPathFormat p) := by
  unfold getAttributeRef
  rcases hl : splitDot p with _ | ⟨a, _ | ⟨b, _ | ⟨c, _ | ds⟩⟩⟩
  · rfl
  · rfl
  · rw [hl] at h2
    simp at h2
  · rw [hl] at h3
    simp at h3
  · rfl

/-- C5: the canonical alias of a resolved reference is
`[qualifier.]dimensionName.attributeName` when the reference's inline
attributes contain the requested attribute; otherwise the dimension is
looked up in the model-level list (DimensionNotFound when absent), the
attribute inside it (AttributeNotFound when absent), and the alias is
`[qualifier.](dimensionAlias or dimensionName).attributeName`. -/
theorem attributeAlias_resolution (dims : List Dimension) (ref : AttributeRef) :
    attributeAlias dims ref =
      match ref.dimension.attributes.bind
          (fun attrs => attrs.find? (fun a => a.name = ref.attrName)) with
      | some _ => .ok (qualDot ref.datasetGroupQualifier ++
          ref.dimension.name ++ "." ++ ref.attrName)
      | none =>
        match dims.find? (fun d => d.name = ref.dimension.name) with
        | none => .error (.dimensionNotFoundInModel ref.dimension.name)
        | some dim =>
          match dim.attributes.find? (fun a => a.name = ref.attrName) with
          | none => .error (.attributeNotFound ref.attrName ref.dimension.name)
          | some _ => .ok (qualDot ref.datasetGroupQualifier ++
              (dim.aliasName.getD dim.name) ++ "." ++ ref.attrName) := by
  unfold attributeAlias
  cases href : ref.dimension.attributes with
  | some attrs =>
    cases hfind : attrs.find? (fun a => a.name = ref.attrName) with
    | some att =>
      have hname : att.name = ref.attrName := by
        have h1 := List.find?_some hfind
        simpa using h1
      cases hq : ref.datasetGroupQualifier with
      | some q => simp [href, hfind, hq, qualDot, hname]
      | none => simp [href, hfind, hq, qualDot, hname]
    | none =>
      cases hd : dims.find? (fun d => d.name = ref.dimension.name) with
      | none => simp [href, hfind, hd]
      | some dim =>
        cases ha : dim.attributes.find? (fun a => a.name = ref.attrName) with
        | none => simp [href, hfind, hd, ha]
        | some att =>
          have hname : att.name = ref.attrName := by
            have h1 := List.find?_some ha
            simpa using h1
          cases hq : ref.datasetGroupQualifier with
          | some q => simp [href, hfind, hd, ha, hq, qualDot, hname]
          | none => simp [href, hfind, hd, ha, hq, qualDot, hname]
  | none =>
    cases hd : dims.find? (fun d => d.name = ref.dimension.name) with
    | none => simp [href, hd]
    | some dim =>
      cases ha : dim.attributes.find? (fun a => a.name = ref.attrName) with
      | none => simp [href, hd, ha]
      | some att =>
        have hname : att.name = ref.attrName := by
          have h1 := List.find?_some ha
          simpa using h1
        cases hq : ref.datasetGroupQualifier with
        | some q => simp [href, hd, ha, hq, qualDot, hname]
        | none => simp [href, hd, ha, hq, qualDot, hname]

/-- C1 (code behaviour at the failing input): with a column path requested,
a raw metric value of `0` is appended to the metric sequence as `null`,
because the columns branch uses the truthiness check
`row[m] ? parseFloat(...) : null` and `0` is falsy.  This contradicts the
documented rule that zero parses to zero and only null/absent values become
null; the no-columns branch (`=== null` check) keeps `0` as `0` on the same
row. -/
theorem pivot_zero_metric_truthiness :
    pivot [rowZero] schemaM "m" queryCols =
      .ok [[("d.a", .str "r"), ("d.b:c", .arr [none])]]
    ∧ pivot [rowZero] schemaM "m" queryNoCols =
      .ok [[("d.a", .str "r"), ("metrics", .arr [some (.val 0)])]] := by
  constructor <;> rfl

/-! List and fold utilities for the pivot-level claims. -/

theorem foldExcept_append {σ α ε : Type} (f : σ → α → Except ε σ) :
    ∀ (l1 l2 : List α) (s : σ),
      foldExcept f s (l1 ++ l2) =
        match foldExcept f s l1 with
        | .error e => .error e
        | .ok s' => foldExcept f s' l2 := by
  intro l1
  induction l1 with
  | nil => intro l2 s; rfl
  | cons x xs ih =>
    intro l2 s
    simp only [List.cons_append, foldExcept_cons]
    cases f s x with
    | error e => rfl
    | ok s' => exact ih l2 s'

theorem list_split_at_get {α : Type} :
    ∀ (l : List α) (i : Nat) (x : α), l.get? i = some x →
      l = l.take i ++ x :: l.drop (i + 1) := by
  intro l
  induction l with
  | nil => intro i x h; simp at h
  | cons y ys ih =>
    intro i x h
    cases i with
    | zero =>
      simp only [List.get?] at h
      injection h with h
      subst h
      simp
    | succ j =>
      simp only [List.get?] at h
      have := ih j x h
      simp only [List.take_succ_cons, List.drop_succ_cons, List.cons_append]
      rw [← this]

theorem mem_take_get {α : Type} :
    ∀ (l : List α) (i : Nat) (x : α), x ∈ l.take i →
      ∃ j, j < i ∧ l.get? j = some x := by
  intro l
  induction l with
  | nil => intro i x h; simp at h
  | cons y ys ih =>
    intro i x h
    cases i with
    | zero => simp at h
    | succ j =>
      simp only [List.take_succ_cons, List.mem_cons] at h
      rcases h with he | hm
      · exact ⟨0, Nat.succ_pos j, by simp [he]⟩
      · obtain ⟨j', hj', hg⟩ := ih j x hm
        exact ⟨j' + 1, Nat.succ_lt_succ hj', by simpa using hg⟩

theorem assocGet_some_index {α : Type} :
    ∀ (m : List (String × α)) (k : String) (v : α), assocGet m k = some v →
      ∃ n, m.get? n = some (k, v) := by
  intro m
  induction m with
  | nil => intro k v h; simp [assocGet] at h
  | cons kv rest ih =>
    intro k v h
    obtain ⟨k0, v0⟩ := kv
    by_cases hk : k0 = k
    · subst hk
      simp only [assocGet, if_pos rfl] at h
      injection h with h
      subst h
      exact ⟨0, rfl⟩
    · simp only [assocGet, if_neg hk] at h
      obtain ⟨n, hn⟩ := ih k v h
      exact ⟨n + 1, by simpa using hn⟩

theorem rowKeyR_congr (ri : List (String × Option Attribute)) (r1 r2 : RawDataRow)
    (h : ∀ pi ∈ ri, assocGet r1 pi.1 = assocGet r2 pi.1) :
    rowKeyR ri r1 = rowKeyR ri r2 := by
  unfold rowKeyR
  congr 1
  induction ri with
  | nil => rfl
  | cons pi ris ih =>
    simp only [List.map_cons]
    rw [h pi (by simp), ih (fun x hx => h x (by simp [hx]))]

theorem colKeyR_congr (ci : List (String × Option Attribute)) (r1 r2 : RawDataRow)
    (h : ∀ pi ∈ ci, assocGet r1 pi.1 = assocGet r2 pi.1) :
    colKeyR ci r1 = colKeyR ci r2 := by
  unfold colKeyR colSegmentsR
  congr 1
  induction ci with
  | nil => rfl
  | cons pi cis ih =>
    simp only [List.map_cons]
    rw [h pi (by simp), ih (fun x hx => h x (by simp [hx]))]

theorem aliases_not_metrics (model : SemanticModel) (dimensions : List Dimension)
    (ps : List String) (ri : List (String × Option Attribute))
    (hr : resolvePaths model dimensions ps = .ok ri) :
    "metrics" ∉ ri.map Prod.fst := by
  intro hmem
  obtain ⟨pi, hpi, hk⟩ := List.exists_of_mem_map hmem
  exact resolvePaths_alias_ne_metrics model dimensions ps ri hr pi hpi hk

/-! Claim theorems about the pivot passes (C8, C2, C10, C3, C9). -/

/-- C8: the accumulated pivot rows stand in first-seen order of their row
keys (the key list of the accumulation map is exactly the first-occurrence
deduplication of the per-row key stream), and the output is the in-order
densification of that map — densification fills missing column keys but
never reorders rows. -/
theorem pivot_first_seen_order (data : List RawDataRow) (schema : Schema)
    (mn : String) (q : QueryRequest) (model : SemanticModel)
    (ri ci : List (String × Option Attribute)) (st : Pass1State) (out : List RowData)
    (hm : schema.semantic_models.find? (fun m => m.name = mn) = some model)
    (hr : resolvePaths model (model.dimensions.getD []) (q.rows.getD []) = .ok ri)
    (hc : resolvePaths model (model.dimensions.getD []) (q.columns.getD []) = .ok ci)
    (hs : foldExcept (processRowR ri ci (q.metrics.getD [])) ⟨[], []⟩ data = .ok st)
    (h : pivot data schema mn q = .ok out) :
    st.resultMap.map Prod.fst = dedupKeepFirst (data.map (rowKeyR ri))
    ∧ out = st.resultMap.map (fun kv =>
        densifyR ri (q.metrics.getD []) (jsSort (dedupKeepFirst st.columnArr)) kv.2) := by
  constructor
  · have hk := runR_keys ri ci (q.metrics.getD []) data ⟨[], []⟩ st hs
    simpa [dedupKeepFirst] using hk
  · rw [pivot_resolved data schema mn q model ri ci hm hr hc, hs] at h
    simp only [Except.ok.injEq] at h
    exact h.symm

/-- C2 (counterexample): the raw rows `{"d.a": "null", "v": 1}` and
`{"d.a": null, "v": 2}` have different formatted row-attribute values
(`"null"` versus `""`) yet land in the same pivot row — the single output
row's metric sequence holds both observations — because row-key identity
uses the raw interpolated value, under which both read `"null"`. -/
theorem pivot_rowkey_formatted_cex :
    pivot [rowNullStr, rowNullVal] schemaM "m" queryNoCols =
      .ok [[("d.a", .str "null"), ("metrics", .arr [some (.val 1), some (.val 2)])]]
    ∧ resolvePaths modelM [] (queryNoCols.rows.getD []) = .ok [("d.a", some attrA)]
    ∧ formatAttributeValue (assocGet rowNullStr "d.a") (some attrA) = "null"
    ∧ formatAttributeValue (assocGet rowNullVal "d.a") (some attrA) = ""
    ∧ jsStringOfRaw (assocGet rowNullStr "d.a") = jsStringOfRaw (assocGet rowNullVal "d.a") := by
  exact ⟨rfl, rfl, rfl, rfl, rfl⟩

/-- C2 (amended): two raw rows are accumulated into the same pivot row if
and only if their row keys agree, where the row key joins `alias:value`
pairs built from the raw values by JavaScript string interpolation (`null`
renders as `"null"`, an absent value as `"undefined"`) — not from the
type-aware formatted values.  For a two-row pivot call the output collapses
to one row exactly when the two row keys are equal. -/
theorem pivot_rowkey_raw_interpolation (schema : Schema) (mn : String)
    (q : QueryRequest) (model : SemanticModel)
    (ri ci : List (String × Option Attribute)) (r1 r2 : RawDataRow)
    (out : List RowData)
    (hm : schema.semantic_models.find? (fun m => m.name = mn) = some model)
    (hr : resolvePaths model (model.dimensions.getD []) (q.rows.getD []) = .ok ri)
    (hc : resolvePaths model (model.dimensions.getD []) (q.columns.getD []) = .ok ci)
    (h : pivot [r1, r2] schema mn q = .ok out) :
    out.length = 1 ↔ rowKeyR ri r1 = rowKeyR ri r2 := by
  rw [pivot_resolved [r1, r2] schema mn q model ri ci hm hr hc] at h
  cases hs : foldExcept (processRowR ri ci (q.metrics.getD [])) ⟨[], []⟩ [r1, r2] with
  | error e =>
    rw [hs] at h
    exact absurd h (by simp)
  | ok st =>
    rw [hs] at h
    simp only [Except.ok.injEq] at h
    subst h
    have hkeys := runR_keys ri ci (q.metrics.getD []) [r1, r2] ⟨[], []⟩ st hs
    simp only [List.map_cons, List.map_nil, List.foldl] at hkeys
    have hlen : (st.resultMap.map (fun kv =>
        densifyR ri (q.metrics.getD []) (jsSort (dedupKeepFirst st.columnArr)) kv.2)).length
        = (st.resultMap.map Prod.fst).length := by
      simp
    rw [hlen, hkeys]
    by_cases hk : rowKeyR ri r1 = rowKeyR ri r2
    · have : stepKey (stepKey [] (rowKeyR ri r1)) (rowKeyR ri r2) = [rowKeyR ri r1] := by
        simp [stepKey, ← hk]
      rw [this]
      simp [hk]
    · have hk2 : ¬rowKeyR ri r2 = rowKeyR ri r1 := fun hh => hk hh.symm
      have : stepKey (stepKey [] (rowKeyR ri r1)) (rowKeyR ri r2) =
          [rowKeyR ri r1, rowKeyR ri r2] := by
        simp [stepKey, hk2]
      rw [this]
      simp [hk]

/-- C3 (counterexample): with dimension `x` carrying the attributes `y` and
`y:z`, row path `x.y:z` and column path `x.y`, the alias of the row
attribute is literally the string `"x.y:z"`, which is also the column key
formed from attribute `y` and the observed value `z`.  The second output
row's raw data lack that column combination, so the claim mandates a
one-element null sequence under the key `"x.y:z"`; instead the output
carries the row-attribute string `"r2"` there. -/
theorem pivot_densify_alias_collision_cex :
    (pivot [rowXA, rowXB] schemaX "m" queryX).map
        (fun out => out.map (fun r => assocGet r "x.y:z"))
      = .ok [some (.arr [some (.val 1)]), some (.str "r2")]
    ∧ resolvePaths modelX [] (queryX.columns.getD [])
      = .ok [("x.y", some ⟨"y", none⟩)]
    ∧ colKeyR [("x.y", some ⟨"y", none⟩)] rowXA = "x.y:z"
    ∧ colKeyR [("x.y", some ⟨"y", none⟩)] rowXB = "x.y:w"
    ∧ resolvePaths modelX [] (queryX.rows.getD [])
      = .ok [("x.y:z", some ⟨"y:z", none⟩)]
    ∧ (queryX.metrics.getD []).length = 1 := by
  exact ⟨rfl, rfl, rfl, rfl, rfl, rfl⟩

/-- C9 (counterexample): the raw rows `{x.y:z: "r", x.y: "z", mv: 1}` and
`{x.y:z: "r", x.y: "z", mv: 2}` carry identical values at the row path
`x.y:z` and at the column path `x.y`, yet `pivot` accumulates no output
row at all: it throws a `TypeError`.  Their shared column key is literally
the row-attribute alias `"x.y:z"`, so pushing the first row's metric value
hits the non-empty string `"r"` that the freshly created pivot row holds
in that field, not a metric sequence. -/
theorem pivot_repeated_observation_cex :
    assocGet rowXC "x.y:z" = assocGet rowXD "x.y:z"
    ∧ assocGet rowXC "x.y" = assocGet rowXD "x.y"
    ∧ resolvePaths modelX [] (queryX.rows.getD [])
      = .ok [("x.y:z", some ⟨"y:z", none⟩)]
    ∧ resolvePaths modelX [] (queryX.columns.getD [])
      = .ok [("x.y", some ⟨"y", none⟩)]
    ∧ rowKeyR [("x.y:z", some ⟨"y:z", none⟩)] rowXC
      = rowKeyR [("x.y:z", some ⟨"y:z", none⟩)] rowXD
    ∧ colKeyR [("x.y", some ⟨"y", none⟩)] rowXC = "x.y:z"
    ∧ colKeyR [("x.y", some ⟨"y", none⟩)] rowXD = "x.y:z"
    ∧ pivot [rowXC, rowXD] schemaX "m" queryX = .error .typeError := by
  exact ⟨rfl, rfl, rfl, rfl, rfl, rfl, rfl, rfl⟩

/-- C9 (amended): two raw rows agreeing on their row key and on their
column key are accumulated into a single output row, and the metric
sequence stored under the shared accumulation key (`"metrics"` when no
columns are requested, the common column key otherwise) holds the metric
values of both rows appended in encounter order — provided the
accumulation key collides with no row-attribute alias, which is automatic
in the no-columns case.  The counterexample shows the proviso necessary:
a colliding key can make the accumulation throw instead. -/
theorem pivot_repeated_observation (schema : Schema) (mn : String)
    (q : QueryRequest) (model : SemanticModel)
    (ri ci : List (String × Option Attribute)) (r1 r2 : RawDataRow)
    (out : List RowData)
    (hm : schema.semantic_models.find? (fun m => m.name = mn) = some model)
    (hr : resolvePaths model (model.dimensions.getD []) (q.rows.getD []) = .ok ri)
    (hc : resolvePaths model (model.dimensions.getD []) (q.columns.getD []) = .ok ci)
    (hkey : rowKeyR ri r1 = rowKeyR ri r2)
    (hck : colKeyR ci r1 = colKeyR ci r2)
    (hcol : ci.isEmpty = false → colKeyR ci r1 ∉ ri.map Prod.fst)
    (h : pivot [r1, r2] schema mn q = .ok out) :
    ∃ r, out = [r] ∧
      ((ci.isEmpty = true ∧ ∃ vals1 vals2,
          mapExcept (fun m => metricValueNoColumns (assocGet r1 m)) (q.metrics.getD [])
            = .ok vals1 ∧
          mapExcept (fun m => metricValueNoColumns (assocGet r2 m)) (q.metrics.getD [])
            = .ok vals2 ∧
          assocGet r "metrics" = some (.arr (vals1 ++ vals2))) ∨
       (ci.isEmpty = false ∧
          assocGet r (colKeyR ci r1) = some (.arr (
            (q.metrics.getD []).map (fun m => metricValueColumns (assocGet r1 m)) ++
            (q.metrics.getD []).map (fun m => metricValueColumns (assocGet r2 m)))))) := by
  rw [pivot_resolved [r1, r2] schema mn q model ri ci hm hr hc] at h
  have hmet : "metrics" ∉ ri.map Prod.fst :=
    aliases_not_metrics model (model.dimensions.getD []) (q.rows.getD []) ri hr
  cases hci : ci.isEmpty with
  | true =>
    cases hv1 : mapExcept (fun m => metricValueNoColumns (assocGet r1 m))
        (q.metrics.getD []) with
    | error e =>
      exfalso
      have hstep : processRowR ri ci (q.metrics.getD []) ⟨[], []⟩ r1 = .error e := by
        unfold processRowR
        simp only [hci, if_true, hv1]
      rw [foldExcept_cons, hstep] at h
      simp at h
    | ok vals1 =>
      have hmet1 : assocGet (newRowR ri r1) "metrics" = none :=
        newRowR_get_not_mem ri r1 "metrics" hmet
      have htgt1 : processTarget ri ⟨[], []⟩ r1 = newRowR ri r1 := rfl
      have hstep1 : processRowR ri ci (q.metrics.getD []) ⟨[], []⟩ r1 =
          .ok ⟨[(rowKeyR ri r1, assocSet (newRowR ri r1) "metrics" (.arr vals1))], []⟩ := by
        unfold processRowR
        simp only [hci, if_true, htgt1, hv1, hmet1, pushMetrics, assocSet]
      cases hv2 : mapExcept (fun m => metricValueNoColumns (assocGet r2 m))
          (q.metrics.getD []) with
      | error e =>
        exfalso
        have hstep2 : processRowR ri ci (q.metrics.getD [])
            ⟨[(rowKeyR ri r1, assocSet (newRowR ri r1) "metrics" (.arr vals1))], []⟩ r2
            = .error e := by
          unfold processRowR
          simp only [hci, if_true, hv2]
        rw [foldExcept_cons, hstep1] at h
        simp only [] at h
        rw [foldExcept_cons, hstep2] at h
        simp at h
      | ok vals2 =>
        have hget1 : assocGet
            [(rowKeyR ri r1, assocSet (newRowR ri r1) "metrics" (.arr vals1))]
            (rowKeyR ri r2) = some (assocSet (newRowR ri r1) "metrics" (.arr vals1)) := by
          rw [← hkey]
          simp [assocGet]
        have htgt2 : processTarget ri
            ⟨[(rowKeyR ri r1, assocSet (newRowR ri r1) "metrics" (.arr vals1))], []⟩ r2
            = assocSet (newRowR ri r1) "metrics" (.arr vals1) := by
          unfold processTarget
          simp only [hget1]
        have hgetm : assocGet (assocSet (newRowR ri r1) "metrics" (.arr vals1)) "metrics"
            = some (.arr vals1) := assocGet_set_same _ _ _
        have hstep2 : processRowR ri ci (q.metrics.getD [])
            ⟨[(rowKeyR ri r1, assocSet (newRowR ri r1) "metrics" (.arr vals1))], []⟩ r2
            = .ok ⟨[(rowKeyR ri r1, assocSet (assocSet (newRowR ri r1) "metrics"
                (.arr vals1)) "metrics" (.arr (vals1 ++ vals2)))], []⟩ := by
          unfold processRowR
          simp only [hci, if_true, htgt2, hv2, hgetm, pushMetrics, ← hkey, assocSet,
            if_pos]
        have hfold : foldExcept (processRowR ri ci (q.metrics.getD [])) ⟨[], []⟩ [r1, r2]
            = .ok ⟨[(rowKeyR ri r1, assocSet (assocSet (newRowR ri r1) "metrics"
                (.arr vals1)) "metrics" (.arr (vals1 ++ vals2)))], []⟩ := by
          rw [foldExcept_cons, hstep1]
          simp only []
          rw [foldExcept_cons, hstep2]
          simp only [foldExcept]
        rw [hfold] at h
        simp only [Except.ok.injEq] at h
        subst h
        refine ⟨densifyR ri (q.metrics.getD []) (jsSort (dedupKeepFirst []))
            (assocSet (assocSet (newRowR ri r1) "metrics" (.arr vals1)) "metrics"
              (.arr (vals1 ++ vals2))),
          by simp, Or.inl ⟨rfl, vals1, vals2, rfl, rfl, ?_⟩⟩
        have hrow : assocGet (assocSet (assocSet (newRowR ri r1) "metrics"
            (.arr vals1)) "metrics" (.arr (vals1 ++ vals2))) "metrics"
            = some (.arr (vals1 ++ vals2)) := assocGet_set_same _ _ _
        have hdd : densifyR ri (q.metrics.getD []) (jsSort (dedupKeepFirst ([] : List String)))
            (assocSet (assocSet (newRowR ri r1) "metrics" (.arr vals1)) "metrics"
              (.arr (vals1 ++ vals2)))
            = setIfSome (ri.foldl (fun acc pi => setIfSome acc pi.1
                (assocGet (assocSet (assocSet (newRowR ri r1) "metrics" (.arr vals1))
                  "metrics" (.arr (vals1 ++ vals2))) pi.1)) []) "metrics"
              (assocGet (assocSet (assocSet (newRowR ri r1) "metrics" (.arr vals1))
                "metrics" (.arr (vals1 ++ vals2))) "metrics") := rfl
        rw [hdd, hrow]
        simp only [setIfSome]
        exact assocGet_set_same _ _ _
  | false =>
    have hcol' : colKeyR ci r1 ∉ ri.map Prod.fst := hcol hci
    have hmet1 : assocGet (newRowR ri r1) (colKeyR ci r1) = none :=
      newRowR_get_not_mem ri r1 (colKeyR ci r1) hcol'
    have htgt1 : processTarget ri ⟨[], []⟩ r1 = newRowR ri r1 := rfl
    have hstep1 : processRowR ri ci (q.metrics.getD []) ⟨[], []⟩ r1 =
        .ok ⟨[(rowKeyR ri r1, assocSet (newRowR ri r1) (colKeyR ci r1)
            (.arr ((q.metrics.getD []).map (fun m => metricValueColumns (assocGet r1 m)))))],
          [colKeyR ci r1]⟩ := by
      unfold processRowR
      simp only [hci, Bool.false_eq_true, if_false, htgt1, hmet1, pushMetrics, assocSet,
        List.nil_append]
    have hget1 : assocGet
        [(rowKeyR ri r1, assocSet (newRowR ri r1) (colKeyR ci r1)
          (.arr ((q.metrics.getD []).map (fun m => metricValueColumns (assocGet r1 m)))))]
        (rowKeyR ri r2) = some (assocSet (newRowR ri r1) (colKeyR ci r1)
          (.arr ((q.metrics.getD []).map (fun m => metricValueColumns (assocGet r1 m))))) := by
      rw [← hkey]
      simp [assocGet]
    have htgt2 : processTarget ri
        ⟨[(rowKeyR ri r1, assocSet (newRowR ri r1) (colKeyR ci r1)
          (.arr ((q.metrics.getD []).map (fun m => metricValueColumns (assocGet r1 m)))))],
          [colKeyR ci r1]⟩ r2
        = assocSet (newRowR ri r1) (colKeyR ci r1)
            (.arr ((q.metrics.getD []).map (fun m => metricValueColumns (assocGet r1 m)))) := by
      unfold processTarget
      simp only [hget1]
    have hgetm : assocGet (assocSet (newRowR ri r1) (colKeyR ci r1)
        (.arr ((q.metrics.getD []).map (fun m => metricValueColumns (assocGet r1 m)))))
        (colKeyR ci r2)
        = some (.arr ((q.metrics.getD []).map (fun m => metricValueColumns (assocGet r1 m)))) := by
      rw [← hck]
      exact assocGet_set_same _ _ _
    have hstep2 : processRowR ri ci (q.metrics.getD [])
        ⟨[(rowKeyR ri r1, assocSet (newRowR ri r1) (colKeyR ci r1)
          (.arr ((q.metrics.getD []).map (fun m => metricValueColumns (assocGet r1 m)))))],
          [colKeyR ci r1]⟩ r2
        = .ok ⟨[(rowKeyR ri r1, assocSet (assocSet (newRowR ri r1) (colKeyR ci r1)
              (.arr ((q.metrics.getD []).map (fun m => metricValueColumns (assocGet r1 m)))))
              (colKeyR ci r2)
              (.arr ((q.metrics.getD []).map (fun m => metricValueColumns (assocGet r1 m)) ++
                (q.metrics.getD []).map (fun m => metricValueColumns (assocGet r2 m)))))],
            [colKeyR ci r1, colKeyR ci r2]⟩ := by
      unfold processRowR
      simp only [hci, Bool.false_eq_true, if_false, htgt2, hgetm, pushMetrics, ← hkey,
        assocSet, if_pos, List.singleton_append]
    have hfold : foldExcept (processRowR ri ci (q.metrics.getD [])) ⟨[], []⟩ [r1, r2]
        = .ok ⟨[(rowKeyR ri r1, assocSet (assocSet (newRowR ri r1) (colKeyR ci r1)
              (.arr ((q.metrics.getD []).map (fun m => metricValueColumns (assocGet r1 m)))))
              (colKeyR ci r2)
              (.arr ((q.metrics.getD []).map (fun m => metricValueColumns (assocGet r1 m)) ++
                (q.metrics.getD []).map (fun m => metricValueColumns (assocGet r2 m)))))],
            [colKeyR ci r1, colKeyR ci r2]⟩ := by
      rw [foldExcept_cons, hstep1]
      simp only []
      rw [foldExcept_cons, hstep2]
      simp only [foldExcept]
    rw [hfold] at h
    simp only [Except.ok.injEq] at h
    subst h
    have hdk : dedupKeepFirst [colKeyR ci r1, colKeyR ci r2] = [colKeyR ci r1] := by
      simp [dedupKeepFirst, stepKey, ← hck]
    have hsort : jsSort [colKeyR ci r1] = [colKeyR ci r1] := rfl
    refine ⟨densifyR ri (q.metrics.getD [])
        (jsSort (dedupKeepFirst [colKeyR ci r1, colKeyR ci r2]))
        (assocSet (assocSet (newRowR ri r1) (colKeyR ci r1)
          (.arr ((q.metrics.getD []).map (fun m => metricValueColumns (assocGet r1 m)))))
          (colKeyR ci r2)
          (.arr ((q.metrics.getD []).map (fun m => metricValueColumns (assocGet r1 m)) ++
            (q.metrics.getD []).map (fun m => metricValueColumns (assocGet r2 m))))),
      by simp, Or.inr ⟨rfl, ?_⟩⟩
    rw [hdk, hsort]
    have hrowget : assocGet (assocSet (assocSet (newRowR ri r1) (colKeyR ci r1)
        (.arr ((q.metrics.getD []).map (fun m => metricValueColumns (assocGet r1 m)))))
        (colKeyR ci r2)
        (.arr ((q.metrics.getD []).map (fun m => metricValueColumns (assocGet r1 m)) ++
          (q.metrics.getD []).map (fun m => metricValueColumns (assocGet r2 m)))))
        (colKeyR ci r1)
        = some (.arr ((q.metrics.getD []).map (fun m => metricValueColumns (assocGet r1 m)) ++
          (q.metrics.getD []).map (fun m => metricValueColumns (assocGet r2 m)))) := by
      rw [← hck]
      exact assocGet_set_same _ _ _
    rw [densifyR_get_colSet ri (q.metrics.getD []) [colKeyR ci r1] _ (colKeyR ci r1)
      (by simp)]
    unfold densVal
    rw [hrowget]
    simp [rowValTruthy]

/-- C3 (amended): when column paths are requested and no row-attribute
alias occurs among the observed column keys (the proviso whose necessity
the counterexample shows), the observed column keys are exactly one per
input row in order; every output row's key set is exactly the
row-attribute aliases together with the sorted deduplicated set of
observed column keys; and the output row of an accumulation entry carries,
under every column key of the global set whose combination with that
entry's row key never occurs in the raw data, a null sequence whose length
is the number of requested metrics. -/
theorem pivot_densification_shape (data : List RawDataRow) (schema : Schema)
    (mn : String) (q : QueryRequest) (model : SemanticModel)
    (ri ci : List (String × Option Attribute)) (st : Pass1State) (out : List RowData)
    (hm : schema.semantic_models.find? (fun m => m.name = mn) = some model)
    (hr : resolvePaths model (model.dimensions.getD []) (q.rows.getD []) = .ok ri)
    (hc : resolvePaths model (model.dimensions.getD []) (q.columns.getD []) = .ok ci)
    (hci : ci ≠ [])
    (hs : foldExcept (processRowR ri ci (q.metrics.getD [])) ⟨[], []⟩ data = .ok st)
    (h : pivot data schema mn q = .ok out)
    (hdisj : ∀ pi ∈ ri, pi.1 ∉ st.columnArr) :
    st.columnArr = data.map (colKeyR ci)
    ∧ (∀ r ∈ out, ∀ k, (assocGet r k).isSome ↔
        (k ∈ ri.map Prod.fst ∨ k ∈ jsSort (dedupKeepFirst st.columnArr)))
    ∧ (∀ i kv, st.resultMap.get? i = some kv →
        ∀ c ∈ jsSort (dedupKeepFirst st.columnArr),
        (¬∃ raw ∈ data, rowKeyR ri raw = kv.1 ∧ colKeyR ci raw = c) →
        ∃ r, out.get? i = some r ∧
          assocGet r c = some (.arr (List.replicate (q.metrics.getD []).length none))) := by
  have hciF : ci.isEmpty = false := by
    cases ci with
    | nil => exact absurd rfl hci
    | cons x xs => rfl
  have harr : st.columnArr = data.map (colKeyR ci) := by
    have hca := runR_columnArr ri ci (q.metrics.getD []) data ⟨[], []⟩ st hs
    simpa [hciF] using hca
  have hout : out = st.resultMap.map (fun kv =>
      densifyR ri (q.metrics.getD []) (jsSort (dedupKeepFirst st.columnArr)) kv.2) := by
    rw [pivot_resolved data schema mn q model ri ci hm hr hc, hs] at h
    simp only [Except.ok.injEq] at h
    exact h.symm
  have hinv : Pass1Inv ri ci data st := by
    have hrun := pass1Inv_run ri ci (q.metrics.getD []) data [] ⟨[], []⟩ st
      (pass1Inv_nil ri ci) hs
    simpa using hrun
  have hnodup : (st.resultMap.map Prod.fst).Nodup := by
    have hk := runR_keys ri ci (q.metrics.getD []) data ⟨[], []⟩ st hs
    rw [hk]
    exact foldl_stepKey_nodup (data.map (rowKeyR ri)) _ (by simp)
  refine ⟨harr, ?_, ?_⟩
  · intro r hrout k
    rw [hout] at hrout
    obtain ⟨kv, hkv, hdr⟩ := List.exists_of_mem_map hrout
    have hget : assocGet st.resultMap kv.1 = some kv.2 :=
      assocGet_of_mem_nodup st.resultMap hnodup kv hkv
    have hfields : ∀ pi ∈ ri, (assocGet kv.2 pi.1).isSome :=
      hinv.2.1 kv.1 kv.2 hget
    have hdatane : data ≠ [] := by
      intro hnil
      subst hnil
      simp only [foldExcept, Except.ok.injEq] at hs
      rw [← hs] at hkv
      simp at hkv
    obtain ⟨d0, data', hdata⟩ := List.exists_cons_of_ne_nil hdatane
    have hc0 : colKeyR ci d0 ∈ st.columnArr := by
      rw [harr, hdata]
      simp
    have hcsne : jsSort (dedupKeepFirst st.columnArr) ≠ [] := by
      apply List.ne_nil_of_mem (a := colKeyR ci d0)
      rw [mem_jsSort, mem_dedupKeepFirst]
      exact hc0
    rw [← hdr]
    exact densifyR_key_isSome ri (q.metrics.getD []) _ kv.2 k hfields hcsne
  · intro i kv hkv c hcmem hnone
    have hmemkv : kv ∈ st.resultMap := List.get?_mem hkv
    have hget : assocGet st.resultMap kv.1 = some kv.2 :=
      assocGet_of_mem_nodup st.resultMap hnodup kv hmemkv
    have hcarr : c ∈ st.columnArr := by
      have h1 := (mem_jsSort (dedupKeepFirst st.columnArr) c).mp hcmem
      exact (mem_dedupKeepFirst st.columnArr c).mp h1
    have hcnotal : c ∉ ri.map Prod.fst := by
      intro hmem2
      obtain ⟨pi, hpi, hk⟩ := List.exists_of_mem_map hmem2
      exact hdisj pi hpi (hk ▸ hcarr)
    have hiff := hinv.2.2 hciF kv.1 kv.2 hget c hcnotal
    have hcnone : assocGet kv.2 c = none := by
      apply Option.not_isSome_iff_eq_none.mp
      rw [hiff]
      exact hnone
    refine ⟨densifyR ri (q.metrics.getD []) (jsSort (dedupKeepFirst st.columnArr)) kv.2,
      ?_, ?_⟩
    · rw [hout, List.get?_map, hkv]
      rfl
    · rw [densifyR_get_colSet ri (q.metrics.getD []) _ kv.2 c hcmem,
        densVal_absent kv.2 (q.metrics.getD []) c hcnone]

/-- C10 (counterexample): the second raw row's row-dimension value is
`null`, yet the corresponding row-attribute field of its output row is
`"null"`, not `""` — the field was rendered once, when the first raw row
(whose value was the string `"null"`) created the pivot row under the same
raw-interpolated row key. -/
theorem pivot_null_field_cex :
    pivot [rowNullStr, rowNullVal] schemaM "m" queryNoCols =
      .ok [[("d.a", .str "null"), ("metrics", .arr [some (.val 1), some (.val 2)])]]
    ∧ assocGet rowNullVal "d.a" = some .null
    ∧ assocGet [("d.a", RowVal.str "null"),
        ("metrics", RowVal.arr [some (.val 1), some (.val 2)])] "d.a"
        = some (.str "null") := by
  exact ⟨rfl, rfl, rfl⟩

/-- C10 (amended): a `null` or absent (`undefined`) dimension value is
rendered as the empty string where the formatter runs.  In every column
key the segment for such an attribute is the alias followed by a colon and
nothing after it.  A row-attribute field, however, is rendered only when a
raw row first creates its pivot row: if a raw row opens a fresh row key
and its value at some row-attribute alias is `null` or absent, then —
provided the alias collides with no observed column key — the
corresponding output row carries `""` in that field, whatever later rows
with the same row key contain. -/
theorem pivot_null_rendering (data : List RawDataRow) (schema : Schema)
    (mn : String) (q : QueryRequest) (model : SemanticModel)
    (ri ci : List (String × Option Attribute)) (out : List RowData)
    (hm : schema.semantic_models.find? (fun m => m.name = mn) = some model)
    (hr : resolvePaths model (model.dimensions.getD []) (q.rows.getD []) = .ok ri)
    (hc : resolvePaths model (model.dimensions.getD []) (q.columns.getD []) = .ok ci)
    (h : pivot data schema mn q = .ok out) :
    (∀ (row : RawDataRow) (i : Nat) (pi : String × Option Attribute),
        ci.get? i = some pi →
        (assocGet row pi.1 = some .null ∨ assocGet row pi.1 = none) →
        (colSegmentsR ci row).get? i = some (pi.1 ++ ":"))
    ∧ (∀ (i : Nat) (row : RawDataRow), data.get? i = some row →
        (∀ (j : Nat) (prev : RawDataRow), j < i → data.get? j = some prev →
          rowKeyR ri prev ≠ rowKeyR ri row) →
        ∀ pi ∈ ri,
        (assocGet row pi.1 = some .null ∨ assocGet row pi.1 = none) →
        (∀ raw ∈ data, ci.isEmpty = false → pi.1 ≠ colKeyR ci raw) →
        ∃ (n : Nat) (r : RowData), out.get? n = some r ∧
          assocGet r pi.1 = some (.str "")) := by
  constructor
  · intro row i pi hgi hnull
    unfold colSegmentsR
    rw [List.get?_map, hgi]
    rcases hnull with hv | hv <;>
      simp [hv, formatAttributeValue_null, formatAttributeValue_undef, String.append_empty]
  · intro i row hrow hfirst pi hpiri hnull hnc
    rw [pivot_resolved data schema mn q model ri ci hm hr hc] at h
    cases hsO : foldExcept (processRowR ri ci (q.metrics.getD [])) ⟨[], []⟩ data with
    | error e =>
      rw [hsO] at h
      exact absurd h (by simp)
    | ok st =>
      rw [hsO] at h
      simp only [Except.ok.injEq] at h
      have hout : out = st.resultMap.map (fun kv =>
          densifyR ri (q.metrics.getD []) (jsSort (dedupKeepFirst st.columnArr)) kv.2) :=
        h.symm
      have hpim : pi.1 ≠ "metrics" :=
        resolvePaths_alias_ne_metrics model (model.dimensions.getD [])
          (q.rows.getD []) ri hr pi hpiri
      have hrowmem : row ∈ data := List.get?_mem hrow
      have hs := hsO
      rw [list_split_at_get data i row hrow, foldExcept_append] at hs
      cases hpre : foldExcept (processRowR ri ci (q.metrics.getD [])) ⟨[], []⟩
          (data.take i) with
      | error e =>
        rw [hpre] at hs
        exact absurd hs (by simp)
      | ok stPre =>
        rw [hpre] at hs
        simp only [] at hs
        rw [foldExcept_cons] at hs
        cases hstep : processRowR ri ci (q.metrics.getD []) stPre row with
        | error e =>
          rw [hstep] at hs
          exact absurd hs (by simp)
        | ok st1 =>
          rw [hstep] at hs
          have hinvPre : Pass1Inv ri ci (data.take i) stPre := by
            have hrun := pass1Inv_run ri ci (q.metrics.getD []) (data.take i) []
              ⟨[], []⟩ stPre (pass1Inv_nil ri ci) hpre
            simpa using hrun
          have hknone : assocGet stPre.resultMap (rowKeyR ri row) = none := by
            apply Option.not_isSome_iff_eq_none.mp
            rw [hinvPre.1 (rowKeyR ri row)]
            rintro ⟨raw, hrawmem, hraweq⟩
            obtain ⟨j, hj, hgetj⟩ := mem_take_get data i raw hrawmem
            exact hfirst j raw hj hgetj hraweq
          obtain ⟨r1, hst1, hbr⟩ :=
            processRowR_ok_elim ri ci (q.metrics.getD []) stPre row st1 hstep
          have htgt : processTarget ri stPre row = newRowR ri row := by
            unfold processTarget
            rw [hknone]
          have hnew : assocGet (newRowR ri row) pi.1 = some (.str "") :=
            newRowR_get_nullish ri row pi.1 ⟨pi, hpiri, rfl⟩ hnull
          have hr1 : assocGet r1 pi.1 = some (.str "") := by
            rcases hbr with ⟨hciT, vals, nv, _, _, hr1e⟩ | ⟨hciF2, nv, _, hr1e⟩
            · rw [hr1e, htgt, assocGet_set_ne _ _ _ _ hpim]
              exact hnew
            · rw [hr1e, htgt,
                assocGet_set_ne _ _ _ _ (hnc row hrowmem hciF2)]
              exact hnew
          have hget1 : assocGet st1.resultMap (rowKeyR ri row) = some r1 := by
            rw [hst1]
            exact assocGet_set_same _ _ _
          obtain ⟨rrow', hget', hval'⟩ := runR_field_stable ri ci (q.metrics.getD [])
            (data.drop (i + 1)) st1 st hs (rowKeyR ri row) r1 hget1 pi.1 hpim
            (fun raw hraw hcif => hnc raw (List.mem_of_mem_drop hraw) hcif)
          obtain ⟨n, hn⟩ := assocGet_some_index st.resultMap (rowKeyR ri row) rrow' hget'
          have hcolarr := runR_columnArr ri ci (q.metrics.getD []) data ⟨[], []⟩ st hsO
          have hnotcs : pi.1 ∉ jsSort (dedupKeepFirst st.columnArr) := by
            rw [mem_jsSort, mem_dedupKeepFirst]
            intro hmemc
            rw [hcolarr] at hmemc
            cases hcie : ci.isEmpty with
            | true =>
              rw [hcie] at hmemc
              simp at hmemc
            | false =>
              rw [hcie] at hmemc
              simp only [Bool.false_eq_true, if_false, List.nil_append] at hmemc
              obtain ⟨raw, hrawmem, hrawk⟩ := List.exists_of_mem_map hmemc
              exact hnc raw hrawmem hcie hrawk.symm
          refine ⟨n, densifyR ri (q.metrics.getD [])
              (jsSort (dedupKeepFirst st.columnArr)) rrow', ?_, ?_⟩
          · rw [hout, List.get?_map, hn]
            rfl
          · exact densifyR_get_alias ri (q.metrics.getD []) _ rrow' pi.1 (.str "")
              ⟨pi, hpiri, rfl⟩ (hval'.trans hr1) hnotcs hpim

/-! Concrete instantiations of the conditional theorems above. -/

theorem getAttributeRef_two_segment_witness :
    splitDot "d.a" = ["d", "a"] ∧
    getAttributeRef "d.a" modelM =
      match (allGroupDims modelM.datasetGroups).find? (fun d => d.name = "d") with
      | some dimRef => .ok ⟨dimRef, "a", none⟩
      | none =>
        match (modelM.dimensions.getD []).find? (fun d => d.name = "d") with
        | some modelDim =>
          .ok ⟨⟨modelDim.name, modelDim.label, some modelDim.attributes⟩, "a", none⟩
        | none => .error (.dimensionNotFoundInAnyGrouping "d") :=
  ⟨rfl, getAttributeRef_two_segment "d.a" modelM "d" "a" rfl⟩

theorem getAttributeRef_three_segment_witness :
    splitDot "g.d.a" = ["g", "d", "a"] ∧
    getAttributeRef "g.d.a" modelM = .ok ⟨dimD, "a", some "g"⟩ :=
  ⟨rfl, (getAttributeRef_three_segment "g.d.a" modelM "g" "d" "a" rfl).2.2
    groupG dimD rfl rfl⟩

theorem getAttributeRef_invalid_segments_witness :
    (splitDot "a.b.c.d").length = 4 ∧
    getAttributeRef "a.b.c.d" modelM = .error (.invalidPathFormat "a.b.c.d") :=
  ⟨rfl, getAttributeRef_invalid_segments "a.b.c.d" modelM (by decide) (by decide)⟩

/-- The accumulation state reached by processing `[rowU1]`. -/
def stW8 : Pass1State :=
  ⟨[("d.a:u", [("d.a", RowVal.str "u"), ("metrics", RowVal.arr [some (JSNum.val 1)])])], []⟩

theorem pivot_first_seen_order_witness :
    foldExcept (processRowR [("d.a", some attrA)] [] ["v"]) ⟨[], []⟩ [rowU1] = .ok stW8 ∧
    (stW8.resultMap.map Prod.fst
        = dedupKeepFirst ([rowU1].map (rowKeyR [("d.a", some attrA)]))
      ∧ [[("d.a", RowVal.str "u"), ("metrics", RowVal.arr [some (JSNum.val 1)])]]
        = stW8.resultMap.map (fun kv => densifyR [("d.a", some attrA)] ["v"]
            (jsSort (dedupKeepFirst stW8.columnArr)) kv.2)) :=
  ⟨rfl, pivot_first_seen_order [rowU1] schemaM "m" queryNoCols modelM
    [("d.a", some attrA)] [] stW8
    [[("d.a", RowVal.str "u"), ("metrics", RowVal.arr [some (JSNum.val 1)])]]
    rfl rfl rfl rfl rfl⟩

theorem pivot_rowkey_raw_interpolation_witness :
    pivot [rowNullStr, rowNullVal] schemaM "m" queryNoCols
      = .ok [[("d.a", .str "null"), ("metrics", .arr [some (.val 1), some (.val 2)])]] ∧
    ([[("d.a", RowVal.str "null"),
        ("metrics", RowVal.arr [some (JSNum.val 1), some (JSNum.val 2)])]].length = 1
      ↔ rowKeyR [("d.a", some attrA)] rowNullStr
          = rowKeyR [("d.a", some attrA)] rowNullVal) :=
  ⟨rfl, pivot_rowkey_raw_interpolation schemaM "m" queryNoCols modelM
    [("d.a", some attrA)] [] rowNullStr rowNullVal
    [[("d.a", RowVal.str "null"),
      ("metrics", RowVal.arr [some (JSNum.val 1), some (JSNum.val 2)])]]
    rfl rfl rfl rfl⟩

/-- The resolved row and column paths of `queryCols`, and the accumulation
state and output of processing `[rowZero]` under them. -/
def riW3 : List (String × Option Attribute) := [("d.a", some attrA)]

def ciW3 : List (String × Option Attribute) := [("d.b", some attrB)]

def stW3 : Pass1State :=
  ⟨[("d.a:r", [("d.a", RowVal.str "r"), ("d.b:c", RowVal.arr [none])])], ["d.b:c"]⟩

def outW3 : List RowData := [[("d.a", RowVal.str "r"), ("d.b:c", RowVal.arr [none])]]

theorem pivot_densification_shape_witness :
    pivot [rowZero] schemaM "m" queryCols = .ok outW3 ∧
    (stW3.columnArr = [rowZero].map (colKeyR ciW3)
      ∧ (∀ r ∈ outW3, ∀ k, (assocGet r k).isSome ↔
          (k ∈ riW3.map Prod.fst ∨ k ∈ jsSort (dedupKeepFirst stW3.columnArr)))
      ∧ (∀ i kv, stW3.resultMap.get? i = some kv →
          ∀ c ∈ jsSort (dedupKeepFirst stW3.columnArr),
          (¬∃ raw ∈ [rowZero], rowKeyR riW3 raw = kv.1 ∧ colKeyR ciW3 raw = c) →
          ∃ r, outW3.get? i = some r ∧
            assocGet r c
              = some (.arr (List.replicate (queryCols.metrics.getD []).length none)))) :=
  ⟨rfl, pivot_densification_shape [rowZero] schemaM "m" queryCols modelM riW3 ciW3
    stW3 outW3 rfl rfl rfl (by simp [ciW3]) rfl rfl (by decide)⟩

theorem pivot_repeated_observation_witness :
    rowKeyR [("d.a", some attrA)] rowU1 = rowKeyR [("d.a", some attrA)] rowU2 ∧
    ∃ r, [[("d.a", RowVal.str "u"),
        ("metrics", RowVal.arr [some (JSNum.val 1), some (JSNum.val 2)])]] = [r] ∧
      ((([] : List (String × Option Attribute)).isEmpty = true ∧ ∃ vals1 vals2,
          mapExcept (fun m => metricValueNoColumns (assocGet rowU1 m))
            (queryNoCols.metrics.getD []) = .ok vals1 ∧
          mapExcept (fun m => metricValueNoColumns (assocGet rowU2 m))
            (queryNoCols.metrics.getD []) = .ok vals2 ∧
          assocGet r "metrics" = some (.arr (vals1 ++ vals2))) ∨
       (([] : List (String × Option Attribute)).isEmpty = false ∧
          assocGet r (colKeyR [] rowU1) = some (.arr (
            (queryNoCols.metrics.getD []).map
              (fun m => metricValueColumns (assocGet rowU1 m)) ++
            (queryNoCols.metrics.getD []).map
              (fun m => metricValueColumns (assocGet rowU2 m)))))) :=
  ⟨rfl, pivot_repeated_observation schemaM "m" queryNoCols modelM
    [("d.a", some attrA)] [] rowU1 rowU2
    [[("d.a", RowVal.str "u"),
      ("metrics", RowVal.arr [some (JSNum.val 1), some (JSNum.val 2)])]]
    rfl rfl rfl rfl rfl (by simp) rfl⟩

theorem pivot_null_rendering_witness :
    pivot [rowNullVal] schemaM "m" queryNoCols
      = .ok [[("d.a", RowVal.str ""), ("metrics", RowVal.arr [some (JSNum.val 2)])]] ∧
    ((∀ (row : RawDataRow) (i : Nat) (pi : String × Option Attribute),
        ([] : List (String × Option Attribute)).get? i = some pi →
        (assocGet row pi.1 = some .null ∨ assocGet row pi.1 = none) →
        (colSegmentsR [] row).get? i = some (pi.1 ++ ":"))
      ∧ (∀ (i : Nat) (row : RawDataRow), [rowNullVal].get? i = some row →
          (∀ (j : Nat) (prev : RawDataRow), j < i → [rowNullVal].get? j = some prev →
            rowKeyR [("d.a", some attrA)] prev ≠ rowKeyR [("d.a", some attrA)] row) →
          ∀ pi ∈ [(("d.a" : String), some attrA)],
          (assocGet row pi.1 = some .null ∨ assocGet row pi.1 = none) →
          (∀ raw ∈ [rowNullVal],
            ([] : List (String × Option Attribute)).isEmpty = false →
            pi.1 ≠ colKeyR [] raw) →
          ∃ (n : Nat) (r : RowData),
            [[("d.a", RowVal.str ""), ("metrics", RowVal.arr [some (JSNum.val 2)])]].get? n
              = some r ∧
            assocGet r pi.1 = some (.str ""))) :=
  ⟨rfl, pivot_null_rendering [rowNullVal] schemaM "m" queryNoCols modelM
    [("d.a", some attrA)] []
    [[("d.a", RowVal.str ""), ("metrics", RowVal.arr [some (JSNum.val 2)])]]
    rfl rfl rfl rfl⟩

end Semstrait
